import Mathlib

/-!
Shallow embedding of the nanoCAD command-language engine
(`src/engine/nanocad.c`) and proofs about its behaviour.

Conventions of the embedding:
* C strings are `List Char`; the NUL terminator is implicit (reading the
  terminator yields `nulChar`, reading past it is undefined behaviour).
* Machine integers (`long`) are `Int`; `uint8_t` values are kept as `Nat`
  reduced mod 256 where the C code can overflow.
* `double` values produced by `atof` are modelled exactly as rationals;
  every concrete computation proved below is exact in binary floating
  point as well (small integers and halves), so the models agree.
* Every `exit(EXIT_FAILURE)` in the C source is modelled as an
  `Except.error` carrying the kind of failure, and undefined behaviour
  (out-of-bounds access, uninitialized reads, division by zero) is the
  distinguished error `EngErr.ub`.
* The self-recursive `substitute_variables` need not terminate in C
  (cyclic variable text); the embedding takes explicit fuel and returns
  `EngErr.fuel` when it runs out, which no theorem below ever hits.

The constant sizes come from the in-tree `nanocad.h`
(`COMMAND_MAX_SIZE` 15, `ARGUMENT_MAX_SIZE` 30, `VARIABLE_MAX_SIZE` 15,
`ARGUMENT_ARRAY_MAX_SIZE` 4); the dimension record mirrors the fields
used by `create_dimension` and `graphics.c` (`start`, `end`,
`line_start`, `line_end`, plus the layer number).
-/

deriving instance DecidableEq for Except

namespace NanoCAD

/-- COMMAND_MAX_SIZE from nanocad.h. -/
def COMMAND_MAX_SIZE : Nat := 15

/-- ARGUMENT_MAX_SIZE from nanocad.h. -/
def ARGUMENT_MAX_SIZE : Nat := 30

/-- VARIABLE_MAX_SIZE from nanocad.h. -/
def VARIABLE_MAX_SIZE : Nat := 15

/-- ARGUMENT_ARRAY_MAX_SIZE from nanocad.h. -/
def ARGUMENT_ARRAY_MAX_SIZE : Nat := 4

/-- The NUL terminator of C strings. -/
def nulChar : Char := Char.ofNat 0

/-- Error outcomes of the C engine.  All constructors except `ub` and
`fuel` correspond to an `exit(EXIT_FAILURE)` call (or an early `false`
return) in `src/engine/nanocad.c`; `ub` marks undefined behaviour
(out-of-bounds access, uninitialized read, division by zero) and `fuel`
is the embedding artifact for the unbounded substitution recursion. -/
inductive EngErr where
  | layerImmutable
  | varRedefinition
  | varNotFound
  | varIndexOutOfRange
  | varIndexSyntax
  | invalidVarType
  | objIndexParse
  | invalidNumChar
  | invalidUnitChar
  | unitUnknown
  | invalidCoordStart
  | invalidCoordNext
  | invalidOper
  | hexInvalid
  | ub
  | fuel
  deriving Repr, DecidableEq

/-- C `isspace` for the characters that can occur in input lines. -/
def isSpaceC (c : Char) : Bool :=
  c = ' ' || c = '\t' || c = '\n' || c = '\x0b' || c = '\x0c' || c = '\r'

/-- ASCII decimal digit test (`c >= '0' && c <= '9'`). -/
def isDigitC (c : Char) : Bool :=
  48 ≤ c.toNat && c.toNat ≤ 57

/-- The numeric characters accepted by `to_base_unit`'s PARSING_NUMBER
stage: `0x30..0x39` (digits) and `0x2B..0x2E` (`+ , - .`). -/
def isNumC (c : Char) : Bool :=
  (48 ≤ c.toNat && c.toNat ≤ 57) || (43 ≤ c.toNat && c.toNat ≤ 46)

/-- Lowercase ASCII letter test (`c >= 0x61 && c <= 0x7A`). -/
def isLowerC (c : Char) : Bool :=
  97 ≤ c.toNat && c.toNat ≤ 122

/-- The characters a variable name may contain in `substitute_variables`
(letters, digits and `^`). -/
def isNameC (c : Char) : Bool :=
  (97 ≤ c.toNat && c.toNat ≤ 122) || (65 ≤ c.toNat && c.toNat ≤ 90) ||
  (48 ≤ c.toNat && c.toNat ≤ 57) || c = '^'

/-- Reading `str[i]` of a C string: positions up to the length give the
character (the terminator at the length), reading past the terminator
is undefined behaviour. -/
def strChar (l : List Char) (i : Nat) : Except EngErr Char :=
  if i ≤ l.length then .ok (l.getD i nulChar) else .error .ub

/-- `chomp` blanks every trailing-scan whitespace character with NUL,
which truncates the C string at its first whitespace character. -/
def chompL (l : List Char) : List Char :=
  l.takeWhile (fun c => !(isSpaceC c))

/-- Digit character for a value `< 10` (the `%` rendering of snprintf). -/
def digitChar (d : Nat) : Char := Char.ofNat (48 + d)

/-- Decimal digit accumulation used to model `snprintf("%lu", n)`:
fuelled so that the kernel can evaluate it. -/
def natCharsAux : Nat → Nat → List Char → List Char
  | 0, _, acc => acc
  | fuelLeft + 1, n, acc =>
    if n = 0 then acc
    else natCharsAux fuelLeft (n / 10) (digitChar (n % 10) :: acc)

/-- Decimal rendering of a natural number, as C's `printf("%lu")`. -/
def natChars (n : Nat) : List Char :=
  if n = 0 then ['0'] else natCharsAux (n + 1) n []

/-- Decimal rendering of an integer, as C's `printf("%ld")`. -/
def intChars (i : Int) : List Char :=
  if i < 0 then '-' :: natChars i.natAbs else natChars i.toNat

/-- Truncation toward zero of a rational, as the C cast `(long)` applied
to a double. -/
def ratTrunc (q : ℚ) : Int := Int.tdiv q.num (q.den : Int)

/-- Floor of a rational, computed directly on numerator/denominator. -/
def ratFloor (q : ℚ) : Int := Int.fdiv q.num (q.den : Int)

/-- Rational subtraction, computed through `mkRat` so that the kernel
can evaluate it (the library operation is irreducible). -/
def qsub (a b : ℚ) : ℚ :=
  mkRat (a.num * (b.den : Int) - b.num * (a.den : Int)) (a.den * b.den)

/-- Scale a rational by a natural constant, through `mkRat`. -/
def qscale (q : ℚ) (k : Nat) : ℚ := mkRat (q.num * (k : Int)) q.den

/-- `nearbyintl`: round to nearest, ties to even (the default FP
rounding mode). -/
def rnearbyint (q : ℚ) : Int :=
  let f := ratFloor q
  let r := qsub q (mkRat f 1)
  if r < mkRat 1 2 then f
  else if mkRat 1 2 < r then f + 1
  else if f % 2 = 0 then f else f + 1

/-- Fuelled integer square root: the largest `s` with `s * s ≤ n`. -/
def isqrtGo : Nat → Nat → Nat → Nat
  | 0, _, s => s
  | fuelLeft + 1, n, s =>
    if (s + 1) * (s + 1) ≤ n then isqrtGo fuelLeft n (s + 1) else s

/-- Integer square root (largest `s` with `s * s ≤ n`). -/
def isqrt (n : Nat) : Nat := isqrtGo n n 0

/-- `(long)roundl(sqrtl(n))` for a nonnegative integer radicand: the
integer nearest to `√n`.  Exact: a tie `√n = s + 1/2` is impossible for
integer `n`, and `roundl(sqrtl ·)` computes the same value for all
magnitudes reachable here. -/
def roundSqrt (n : Nat) : Int :=
  let s := isqrt n
  if s * s + s + 1 ≤ n then ((s : Int) + 1) else (s : Int)

/-- Maximal run of decimal digits: value, digit count, and the rest. -/
def parseDigitsAux : List Char → Nat → Nat → Nat × Nat × List Char
  | [], v, k => (v, k, [])
  | c :: cs, v, k =>
    if isDigitC c then parseDigitsAux cs (v * 10 + (c.toNat - 48)) (k + 1)
    else (v, k, c :: cs)

/-- Parse a maximal digit run from the front of a string. -/
def parseDigits (l : List Char) : Nat × Nat × List Char :=
  parseDigitsAux l 0 0

/-- C `atof`: optional whitespace and sign, digit run, optional
fractional part, optional exponent.  The value is modelled exactly as a
rational; every concrete value appearing in a theorem below is exactly
representable as a double, so the model and the C double agree there. -/
def atofQ (l : List Char) : ℚ :=
  let l1 := l.dropWhile isSpaceC
  let sgn : Int := match l1 with
    | '-' :: _ => -1
    | _ => 1
  let l2 : List Char := match l1 with
    | '-' :: r => r
    | '+' :: r => r
    | r => r
  let p1 := parseDigits l2
  let p2 : Nat × Nat × List Char := match p1.2.2 with
    | '.' :: r => parseDigits r
    | r => (0, 0, r)
  let ex : Int := match p2.2.2 with
    | 'e' :: '-' :: r2 => -((parseDigits r2).1 : Int)
    | 'e' :: '+' :: r2 => ((parseDigits r2).1 : Int)
    | 'e' :: r2 => ((parseDigits r2).1 : Int)
    | 'E' :: '-' :: r2 => -((parseDigits r2).1 : Int)
    | 'E' :: '+' :: r2 => ((parseDigits r2).1 : Int)
    | 'E' :: r2 => ((parseDigits r2).1 : Int)
    | _ => 0
  let mant : Int := sgn * ((p1.1 * 10 ^ p2.2.1 + p2.1 : Nat) : Int)
  if 0 ≤ ex then mkRat (mant * 10 ^ ex.toNat) (10 ^ p2.2.1)
  else mkRat mant (10 ^ p2.2.1 * 10 ^ (-ex).toNat)

/-- Absolute value of a rational. -/
def qabs (q : ℚ) : ℚ := mkRat (q.num.natAbs : Int) q.den

/-- Left-pad a digit list with zeros to the given width. -/
def padZeros (k : Nat) (l : List Char) : List Char :=
  List.replicate (k - l.length) '0' ++ l

/-- `snprintf(strval, ARGUMENT_MAX_SIZE, "%f", v)`: six decimals,
truncated to the 29 characters the buffer can hold.  An exact tie at
the sixth decimal is impossible for the doubles reachable here, so
rounding to nearest fully determines the output. -/
def formatF (q : ℚ) : List Char :=
  let n := (rnearbyint (qscale (qabs q) 1000000)).toNat
  let core := natChars (n / 1000000) ++ '.' :: padZeros 6 (natChars (n % 1000000))
  (if q < 0 then '-' :: core else core).take (ARGUMENT_MAX_SIZE - 1)

/-- `snprintf(strval, ARGUMENT_MAX_SIZE, "x%ld;y%ld", x, y)`. -/
def formatXY (x y : Int) : List Char :=
  ('x' :: intChars x ++ ';' :: 'y' :: intChars y).take (ARGUMENT_MAX_SIZE - 1)

/-- Scanner stages of `to_base_unit` (PARSING_NUMBER / PARSING_UNIT). -/
inductive TBStage where
  | number
  | unitStage
  deriving Repr, DecidableEq

/-- Scanner state of `to_base_unit`: the current stage, the `strnum`
buffer (`none` while still uninitialized) and the `unit` buffer. -/
structure TBState where
  stage : TBStage
  strnum : Option (List Char)
  unitAcc : List Char
  deriving Repr, DecidableEq

/-- One character of `to_base_unit`'s scanning loop.  The `strnum`
buffer has `ARGUMENT_MAX_SIZE` cells and the `unit` buffer 3 cells;
appending past either is undefined behaviour (the C code does not
check). -/
def tbStep (s : TBState) (c : Char) : Except EngErr TBState :=
  match s.stage with
  | .number =>
    if isNumC c then
      let cur := s.strnum.getD []
      if ARGUMENT_MAX_SIZE ≤ cur.length + 1 then .error .ub
      else .ok { s with strnum := some (cur ++ [c]) }
    else if isLowerC c then
      .ok { s with stage := .unitStage, unitAcc := [c] }
    else .error .invalidNumChar
  | .unitStage =>
    if isLowerC c then
      if 3 ≤ s.unitAcc.length + 1 then .error .ub
      else .ok { s with unitAcc := s.unitAcc ++ [c] }
    else .error .invalidUnitChar

/-- `to_base_unit`: scan number and unit, then convert.  Reading the
number out of a never-written `strnum` buffer is undefined behaviour. -/
def toBaseUnit (str : List Char) : Except EngErr Int := do
  let s ← str.foldlM tbStep ⟨.number, none, []⟩
  match s.strnum with
  | none => .error .ub
  | some strnum =>
    let orig := atofQ strnum
    if s.unitAcc = [] then .ok (ratTrunc orig)
    else if s.unitAcc = ['m'] then .ok (ratTrunc (qscale orig 1000))
    else if s.unitAcc = ['c', 'm'] then .ok (ratTrunc (qscale orig 10))
    else if s.unitAcc = ['m', 'm'] then .ok (ratTrunc orig)
    else .error .unitUnknown

/-- coord_t: a pair of C `long`s. -/
structure coord_t where
  x : Int
  y : Int
  deriving Repr, DecidableEq

/-- rgba_color_t: four `uint8_t` channels. -/
structure rgba_color_t where
  r : Nat
  g : Nat
  b : Nat
  alpha : Nat
  deriving Repr, DecidableEq

/-- layer_t: number, name and color. -/
structure layer_t where
  num : Nat
  name : List Char
  color : rgba_color_t
  deriving Repr, DecidableEq

/-- object_t: type tag, layer number and coordinate list. -/
structure object_t where
  type : Nat
  layer_num : Nat
  coords : List coord_t
  deriving Repr, DecidableEq

/-- The payload behind a variable's `void *value`.  `null` models a
never-assigned pointer (the `^` pseudo-variable before any object
exists); an `objref` holds the index into the object list whose slot
address the C code stored. -/
inductive VarValue where
  | fixed (v : ℚ)
  | coord (c : coord_t)
  | objref (idx : Nat)
  | null
  deriving Repr, DecidableEq

/-- variable_t: sigil type character, name, value. -/
structure variable_t where
  type : Char
  name : List Char
  value : VarValue
  deriving Repr, DecidableEq

/-- dimension_t: the measured segment (`start`, `end`), the annotation
line (`line_start`, `line_end`) and the layer number; field names from
`create_dimension` and its consumer `graphics.c`. -/
structure dimension_t where
  start : coord_t
  end_ : coord_t
  line_start : coord_t
  line_end : coord_t
  layer_num : Nat
  deriving Repr, DecidableEq

/-- The engine's global containers plus the `last_object` variable.
`lastName`/`lastValue` model `last_object.name != NULL` and the object
slot its `value` points to. -/
structure EngineState where
  objects : List object_t
  vars : List variable_t
  history : List (List Char)
  layers : List layer_t
  dimensions : List dimension_t
  lastName : Bool
  lastValue : Option Nat
  deriving Repr, DecidableEq

/-- hex_to_dec on one hexadecimal digit character. -/
def hexDigit (c : Char) : Except EngErr Nat :=
  if 48 ≤ c.toNat ∧ c.toNat ≤ 57 then .ok (c.toNat - 48)
  else if 65 ≤ c.toNat ∧ c.toNat ≤ 70 then .ok (c.toNat - 65 + 10)
  else if 97 ≤ c.toNat ∧ c.toNat ≤ 102 then .ok (c.toNat - 97 + 10)
  else .error .hexInvalid

/-- hex_to_dec: a two-character hexadecimal byte, high digit first. -/
def hexToDec (c0 c1 : Char) : Except EngErr Nat := do
  let d1 ← hexDigit c1
  let d0 ← hexDigit c0
  .ok (d0 * 16 + d1)

/-- parse_rgb_color: three byte pairs from positions 0..5 of the color
string; alpha fixed at 255.  Reading past the string's terminator is
undefined behaviour. -/
def parseRgbColor (str : List Char) : Except EngErr rgba_color_t := do
  let r ← hexToDec (← strChar str 0) (← strChar str 1)
  let g ← hexToDec (← strChar str 2) (← strChar str 3)
  let b ← hexToDec (← strChar str 4) (← strChar str 5)
  .ok ⟨r, g, b, 255⟩

/-- get_layer: linear search for the first layer with the number. -/
def getLayer (st : EngineState) (num : Nat) : Option layer_t :=
  st.layers.find? (fun l => l.num = num)

/-- set_layer: refuses to touch layer 0 once it exists
(`exit(EXIT_FAILURE)`), otherwise appends a new layer.  No duplicate
check is performed (the C source carries a TODO for it). -/
def setLayer (st : EngineState) (num : Nat) (name : List Char)
    (color : List Char) : Except EngErr EngineState := do
  if num = 0 ∧ 0 < st.layers.length then .error .layerImmutable
  else do
    let col ← parseRgbColor color
    .ok { st with layers := st.layers ++ [⟨num, name, col⟩] }

/-- C `atoi` (and `strtoul` base 10) cast to `uint8_t`: skip
whitespace, optional sign, maximal digit run, reduce mod 256. -/
def atoiU8 (l : List Char) : Nat :=
  let l1 := l.dropWhile isSpaceC
  let sgn : Int := match l1 with
    | '-' :: _ => -1
    | _ => 1
  let l2 : List Char := match l1 with
    | '-' :: r => r
    | '+' :: r => r
    | r => r
  ((sgn * ((parseDigits l2).1 : Int)) % 256).toNat

/-- parse_layer_num: copies up to four characters after the leading
`l` into a 4-cell buffer and runs `atoi`.  If no terminator lies within
those four characters the buffer is left unterminated and `atoi` reads
past it: undefined behaviour. -/
def parseLayerNum (arg : List Char) : Except EngErr Nat :=
  let tail := arg.drop 1
  if 4 ≤ tail.length then .error .ub
  else .ok (atoiU8 tail)

/-- The digit-run part of sscanf("%zu"): at least one digit must
follow; the value wraps mod 2^64 like `strtoul`, and a leading minus
sign wraps around zero. -/
def sscanfNat (l : List Char) (neg : Bool) : Option Nat :=
  match l with
  | c :: _ =>
    if isDigitC c then
      some (if neg then (2 ^ 64 - (parseDigits l).1 % 2 ^ 64) % 2 ^ 64
        else (parseDigits l).1 % 2 ^ 64)
    else none
  | [] => none

/-- sscanf("%zu"): optional whitespace and sign, then at least one
digit. -/
def sscanfZu (l : List Char) : Option Nat :=
  match l.dropWhile isSpaceC with
  | '-' :: r => sscanfNat r true
  | '+' :: r => sscanfNat r false
  | r => sscanfNat r false

/-- get_variable: resolves `^` through `last_object` first (NULL when
its name was never set), then linear-searches the variable list. -/
def getVariable (st : EngineState) (name : List Char) :
    Option variable_t :=
  if name = ['^'] then
    if st.lastName then
      some ⟨'&', ['^'], match st.lastValue with
        | some i => .objref i
        | none => .null⟩
    else none
  else
    st.vars.find? (fun v => v.name = name)

/-- variable_strval: renders a variable for substitution.  A missing
variable or an out-of-range coordinate index is an
`exit(EXIT_FAILURE)`; dereferencing a dangling or null object pointer
is undefined behaviour. -/
def variableStrval (st : EngineState) (name : List Char)
    (coordIndex : Nat) : Except EngErr (List Char) :=
  match getVariable st name with
  | none => .error .varNotFound
  | some var =>
    if var.type = '$' then
      match var.value with
      | .fixed v => .ok (formatF v)
      | _ => .error .ub
    else if var.type = '@' then
      match var.value with
      | .coord c => .ok (formatXY c.x c.y)
      | _ => .error .ub
    else if var.type = '&' then
      match var.value with
      | .objref idx =>
        match st.objects.get? idx with
        | none => .error .ub
        | some obj =>
          if coordIndex < obj.coords.length then
            let c := obj.coords.getD coordIndex ⟨0, 0⟩
            .ok (formatXY c.x c.y)
          else .error .varIndexOutOfRange
      | _ => .error .ub
    else .error .invalidVarType

/-- calc_coordinate: width adds the base x, height adds the base y. -/
def calcCoordinate (oper : Char) (base : coord_t) (c : coord_t) :
    Except EngErr coord_t :=
  if oper = 'w' then .ok ⟨c.x + base.x, base.y⟩
  else if oper = 'h' then .ok ⟨base.x, c.y + base.y⟩
  else .error .invalidOper

/-- Scanner stages of parse_coordinates. -/
inductive PCStage where
  | start
  | coordX
  | nextArg
  | coordY
  | widthStage
  | heightStage
  deriving Repr, DecidableEq

/-- Scanner state of parse_coordinates: stage, pending operation
character, and the `coord_x`/`coord_y` buffers.  The buffers start as
the C string "0"; `none` means no character has overwritten it yet. -/
structure PCState where
  stage : PCStage
  operation : Char
  cx : Option (List Char)
  cy : Option (List Char)
  deriving Repr, DecidableEq

/-- Append one character to a parse_coordinates buffer
(`ARGUMENT_MAX_SIZE` cells, no bound check in the C source). -/
def pcAppend (o : Option (List Char)) (c : Char) :
    Except EngErr (Option (List Char)) :=
  let cur := o.getD []
  if ARGUMENT_MAX_SIZE ≤ cur.length + 1 then .error .ub
  else .ok (some (cur ++ [c]))

/-- One character of parse_coordinates' scanning loop. -/
def pcStep (s : PCState) (c : Char) : Except EngErr PCState :=
  match s.stage with
  | .start =>
    if c = 'x' then .ok { s with stage := .coordX }
    else if c = 'w' then .ok { s with stage := .widthStage, operation := 'w' }
    else if c = 'h' then .ok { s with stage := .heightStage, operation := 'h' }
    else .error .invalidCoordStart
  | .coordX =>
    if c = ';' then .ok { s with stage := .nextArg }
    else do .ok { s with cx := ← pcAppend s.cx c }
  | .nextArg =>
    if c = 'y' then .ok { s with stage := .coordY }
    else .error .invalidCoordNext
  | .coordY => do .ok { s with cy := ← pcAppend s.cy c }
  | .widthStage => do .ok { s with cx := ← pcAppend s.cx c }
  | .heightStage => do .ok { s with cy := ← pcAppend s.cy c }

/-- parse_coordinates: scan the argument, convert both buffers with
to_base_unit, then apply calc_coordinate when both a base and an
operation are present. -/
def parseCoordinates (arg : List Char) (base : Option coord_t) :
    Except EngErr coord_t := do
  let s ← arg.foldlM pcStep ⟨.start, nulChar, none, none⟩
  let x ← toBaseUnit (s.cx.getD ['0'])
  let y ← toBaseUnit (s.cy.getD ['0'])
  match base with
  | some b =>
    if s.operation ≠ nulChar then calcCoordinate s.operation b ⟨x, y⟩
    else .ok ⟨x, y⟩
  | none => .ok ⟨x, y⟩

/-- Final storing step of set_variable: the name `^` only marks
`last_object.name` as set (the parsed value is dropped — the C code
returns before appending); any other name is appended to the variable
list. -/
def setVariableStore (st : EngineState) (ty : Char) (nm : List Char)
    (v : VarValue) : EngineState :=
  if nm = ['^'] then { st with lastName := true }
  else { st with vars := st.vars ++ [⟨ty, nm, v⟩] }

/-- Value parsing and storing part of set_variable (after the
redefinition check). -/
def setVariableParsed (st : EngineState) (ty : Char) (nm value : List Char) :
    Except EngErr EngineState :=
  if ty = '$' then
    .ok (setVariableStore st ty nm (.fixed (atofQ value)))
  else if ty = '@' then
    match parseCoordinates value none with
    | .error e => .error e
    | .ok c => .ok (setVariableStore st ty nm (.coord c))
  else if ty = '&' then
    match sscanfZu value with
    | none => .error .objIndexParse
    | some idx =>
      if nm = ['^'] then
        .ok { st with lastValue := some idx, lastName := true }
      else .ok (setVariableStore st ty nm (.objref idx))
  else .error .invalidVarType

/-- set_variable: strip the sigil, refuse to redefine an existing
variable whose stored name does not begin with `^`
(`exit(EXIT_FAILURE)`), parse the value according to the sigil, and
either rebind `last_object` (name exactly `^`, which is never appended)
or append a new variable. -/
def setVariable (st : EngineState) (name value : List Char) :
    Except EngErr EngineState :=
  match name with
  | [] => .error .ub
  | ty :: nm =>
    match getVariable st nm with
    | some old =>
      if old.name.headD nulChar ≠ '^' then .error .varRedefinition
      else setVariableParsed st ty nm value
    | none => setVariableParsed st ty nm value

/-- is_no_substitute_command: only `inspect` is listed. -/
def isNoSubstituteCommand (command : List Char) : Bool :=
  command = "inspect".toList

/-- Result of the scanning loop of substitute_variables: `begin`,
`end` (when set), the accumulated variable name, and the bracket
index. -/
structure SubScanResult where
  bpos : Option Nat
  epos : Option Nat
  varName : List Char
  idx : Nat
  deriving Repr, DecidableEq

/-- The scanning loop of substitute_variables over the remaining
characters (`rem` is the suffix of the argument starting at index
`i`).  Faithful quirks: after an invalid name character records the
end position the loop keeps running and keeps appending later
letters/digits to the name; a `[` consumes two lookahead characters
and stops the loop at the `]`.  The `var_name` buffer has
`VARIABLE_MAX_SIZE` cells and is appended without a bound check. -/
def subScan : List Char → Nat → Option Nat → Option Nat → List Char →
    Nat → Except EngErr SubScanResult
  | [], _, bpos, epos, nm, idx => .ok ⟨bpos, epos, nm, idx⟩
  | c :: rest, i, bpos, epos, nm, idx =>
    match bpos with
    | none =>
      if c = '$' ∨ c = '@' ∨ c = '&' then
        subScan rest (i + 1) (some i) epos nm idx
      else
        subScan rest (i + 1) none epos nm idx
    | some _ =>
      if isNameC c then
        if VARIABLE_MAX_SIZE ≤ nm.length + 1 then .error .ub
        else subScan rest (i + 1) bpos epos (nm ++ [c]) idx
      else if c = '[' then
        let c1 := rest.headD nulChar
        let idx1 := (((c1.toNat : Int) - 48) % 256).toNat
        match rest with
        | [] => .error .ub
        | _ :: rest2 =>
          let c2 := rest2.headD nulChar
          if c2 = ']' then .ok ⟨bpos, some (i + 3), nm, idx1⟩
          else .error .varIndexSyntax
      else
        subScan rest (i + 1) bpos (some i) nm idx

/-- substitute_variables: find one variable reference with `subScan`,
render it with variable_strval, splice it into the argument, then
recurse on the result.  The argument lives in a
30-cell buffer; a splice that would overflow it is undefined
behaviour.  The C recursion is unbounded (cyclic variable text); the
embedding burns one unit of fuel per substitution. -/
def substituteVariables (st : EngineState) (fuelLeft : Nat)
    (command : List Char) (arg : List Char) :
    Except EngErr (List Char × Nat) :=
  match fuelLeft with
  | 0 => .error .fuel
  | fuelLeft + 1 =>
    if isNoSubstituteCommand command then .ok (arg, 0)
    else if command = "set".toList then .ok (arg, 0)
    else
      match subScan arg 0 none none [] 0 with
      | .error e => .error e
      | .ok r =>
        match r.bpos with
        | none => .ok (arg, 0)
        | some b =>
          match variableStrval st r.varName r.idx with
          | .error err => .error err
          | .ok strval =>
            if ARGUMENT_MAX_SIZE ≤ b + strval.length + 1 then .error .ub
            else if ARGUMENT_MAX_SIZE ≤ b + strval.length +
                (arg.length - r.epos.getD arg.length) + 1 then .error .ub
            else
              match substituteVariables st fuelLeft command
                  (arg.take b ++ strval ++
                    arg.drop (r.epos.getD arg.length)) with
              | .error err => .error err
              | .ok (res, n) => .ok (res, n + 1)

/-- Set the layer number of the most recently appended object
(`objects.list[objects.count - 1].layer_num = ...`). -/
def setLastObjectLayer (st : EngineState) (num : Nat) : EngineState :=
  { st with objects :=
      st.objects.take (st.objects.length - 1) ++
      (st.objects.getLast?.elim [] (fun o => [{ o with layer_num := num }])) }

/-- create_object: parse the coordinates for the object type (only
TYPE_LINE has a case in the C switch; the other types leave the
coordinate fields uninitialized — undefined behaviour), append the
object, rebind `^` through set_variable, then consume the optional
trailing `&name` and `l<N>` arguments. -/
def createObject (st : EngineState) (ty : Nat) (args : List (List Char)) :
    Except EngErr EngineState := do
  let coords ←
    if ty = 1 then do
      let a0 ← (args.get? 0).elim (.error .ub) .ok
      let a1 ← (args.get? 1).elim (.error .ub) .ok
      let c0 ← parseCoordinates a0 none
      let c1 ← parseCoordinates a1 (some c0)
      pure [c0, c1]
    else .error .ub
  let st1 := { st with objects := st.objects ++ [⟨ty, 0, coords⟩] }
  let idxStr := (natChars (st1.objects.length - 1)).take (VARIABLE_MAX_SIZE - 1)
  let st2 ← setVariable st1 "&^".toList idxStr
  if args.length = 0 then .error .ub
  else do
    let lastArg := args.getD (args.length - 1) []
    let last2 : EngineState × Nat ←
      if lastArg.headD nulChar = '&' then do
        let st3 ← setVariable st2 lastArg idxStr
        if args.length = 1 then .error .ub
        else pure (st3, args.length - 2)
      else pure (st2, args.length - 1)
    let layerArg := args.getD last2.2 []
    if layerArg.headD nulChar = 'l' then do
      let num ← parseLayerNum layerArg
      pure (setLastObjectLayer last2.1 num)
    else pure last2.1

/-- Endpoint-order normalization of create_dimension's offset mode:
returns `(ostart, oend)`.  The branch structure mirrors the C
if-chain; the final arm is exhaustive for integers. -/
def dimenNormalize (s e : coord_t) : coord_t × coord_t :=
  if s.y = e.y then
    if s.x < e.x then (s, e) else (e, s)
  else if s.x = e.x then
    if s.y > e.y then (s, e) else (e, s)
  else if s.y > e.y then
    if s.x < e.x then (s, e) else (e, s)
  else
    if s.x < e.x then (s, e) else (e, s)

/-- create_dimension's control flow (everything before the single
append at the end): the C arity guard `(argc < 4) && (argc > 5)` is
unsatisfiable and never fires, so it is reproduced as dead code; the
optional trailing `l<N>` selects a layer; offset mode normalizes the
segment, forms the rounded unit delta, and displaces the endpoints by
`offset` along the axis picked by the direction token.  A zero-length
measured segment divides by zero (undefined behaviour); an unknown
direction is a recoverable `false` return, producing no dimension. -/
def createDimensionCore (args : List (List Char)) (isOffset : Bool) :
    Except EngErr (Bool × Option dimension_t) := do
  let argc := args.length
  if argc < 4 ∧ argc > 5 then pure (false, none)
  else do
    let lastA ← (args.get? (argc - 1)).elim (.error .ub) .ok
    let layerNum ← if lastA.headD nulChar = 'l'
      then parseLayerNum lastA else pure 0
    let a0 ← (args.get? 0).elim (.error .ub) .ok
    let a1 ← (args.get? 1).elim (.error .ub) .ok
    let dstart ← parseCoordinates a0 none
    let dend ← parseCoordinates a1 none
    if isOffset then do
      let a2 ← (args.get? 2).elim (.error .ub) .ok
      let a3 ← (args.get? 3).elim (.error .ub) .ok
      let offset ← toBaseUnit a3
      let oPair := dimenNormalize dstart dend
      let dX := oPair.1.x - oPair.2.x
      let dY := oPair.1.y - oPair.2.y
      let dist := roundSqrt (dX * dX + dY * dY).toNat
      if dist = 0 then .error .ub
      else do
        let ndx := rnearbyint (mkRat dX dist.toNat)
        let ndy := rnearbyint (mkRat dY dist.toNat)
        let c0 := a2.headD nulChar
        let c1 := a2.getD 1 nulChar
        if c0 = 'u' then do
          let baseLs : coord_t := ⟨dstart.x, dstart.y - offset * ndx⟩
          let baseLe : coord_t := ⟨dend.x, dend.y - offset * ndx⟩
          let ls : coord_t := if c1 = 'l' ∨ c1 = 'r'
            then ⟨dstart.x + offset * ndy, baseLs.y⟩ else baseLs
          let le : coord_t := if c1 = 'l' ∨ c1 = 'r'
            then ⟨dend.x + offset * ndy, baseLe.y⟩ else baseLe
          pure (true, some ⟨dstart, dend, ls, le, layerNum⟩)
        else if c0 = 'd' then do
          let baseLs : coord_t := ⟨dstart.x, dstart.y + offset * ndx⟩
          let baseLe : coord_t := ⟨dend.x, dend.y + offset * ndx⟩
          let ls : coord_t := if c1 = 'l' ∨ c1 = 'r'
            then ⟨dstart.x - offset * ndy, baseLs.y⟩ else baseLs
          let le : coord_t := if c1 = 'l' ∨ c1 = 'r'
            then ⟨dend.x - offset * ndy, baseLe.y⟩ else baseLe
          pure (true, some ⟨dstart, dend, ls, le, layerNum⟩)
        else if c0 = 'r' then
          pure (true, some ⟨dstart, dend,
            ⟨dstart.x + offset * ndy, dstart.y⟩,
            ⟨dend.x + offset * ndy, dend.y⟩, layerNum⟩)
        else if c0 = 'l' then
          pure (true, some ⟨dstart, dend,
            ⟨dstart.x - offset * ndy, dstart.y⟩,
            ⟨dend.x - offset * ndy, dend.y⟩, layerNum⟩)
        else pure (false, none)
    else do
      let a2 ← (args.get? 2).elim (.error .ub) .ok
      let a3 ← (args.get? 3).elim (.error .ub) .ok
      let ls ← parseCoordinates a2 none
      let le ← parseCoordinates a3 none
      pure (true, some ⟨dstart, dend, ls, le, layerNum⟩)

/-- create_dimension: run the control flow, then perform the single
append into the dimension container exactly when a dimension was
built. -/
def createDimension (st : EngineState) (args : List (List Char))
    (isOffset : Bool) : Except EngErr (Bool × EngineState) :=
  match createDimensionCore args isOffset with
  | .error e => .error e
  | .ok (b, none) => .ok (b, st)
  | .ok (b, some d) =>
    .ok (b, { st with dimensions := st.dimensions ++ [d] })

/-- The reads print_variable_info performs that can crash: rendering an
object variable dereferences the stored object pointer, indexes
`valid_objects[type - 1]`, and dereferences `get_layer(layer_num)`
without a NULL check. -/
def printVariableInfoCheck (st : EngineState) (var : variable_t) :
    Except EngErr Unit :=
  match var.value with
  | .fixed _ => .ok ()
  | .coord _ => .ok ()
  | .objref idx =>
    match st.objects.get? idx with
    | none => .error .ub
    | some obj =>
      if obj.type = 0 ∨ 3 < obj.type then .error .ub
      else match getLayer st obj.layer_num with
        | none => .error .ub
        | some _ => .ok ()
  | .null => .error .ub

/-- inspect: strip the leading type character (shifting an empty
string reads past its terminator — undefined behaviour), then look the
thing up; a miss is a recoverable `false`. -/
def inspect (st : EngineState) (thing : List Char) :
    Except EngErr Bool :=
  match thing with
  | [] => .error .ub
  | ty :: rest =>
    if ty = '$' ∨ ty = '@' ∨ ty = '&' then
      match getVariable st rest with
      | none => .ok false
      | some var => do
        let _ ← printVariableInfoCheck st var
        .ok true
    else if ty = 'l' then
      match getLayer st (atoiU8 rest) with
      | none => .ok false
      | some _ => .ok true
    else .ok false

/-- is_obj_command: `line` is 1, `rect` 2, `circle` 3, otherwise -1. -/
def isObjCommand (command : List Char) : Int :=
  if command = "line".toList then 1
  else if command = "rect".toList then 2
  else if command = "circle".toList then 3
  else -1

/-- Tokenizer stages of parse_line. -/
inductive PLStage where
  | commandS
  | argumentsS
  | setObjVarS
  deriving Repr, DecidableEq

/-- Tokenizer state: stage, command buffer, current argument buffer,
the `argc` counter (starts at -1) and the argument array written so
far. -/
structure PLState where
  stage : PLStage
  command : List Char
  curArg : List Char
  argc : Int
  args : List (List Char)
  deriving Repr, DecidableEq

/-- Write `arguments[idx]`.  The array has `ARGUMENT_ARRAY_MAX_SIZE`
slots; a negative or out-of-range index is undefined behaviour. -/
def storeArg (args : List (List Char)) (idx : Int) (v : List Char) :
    Except EngErr (List (List Char)) :=
  if idx < 0 then .error .ub
  else if (ARGUMENT_ARRAY_MAX_SIZE : Int) ≤ idx then .error .ub
  else if idx.toNat < args.length then .ok (args.set idx.toNat v)
  else if idx.toNat = args.length then .ok (args ++ [v])
  else .error .ub

/-- One character of parse_line's loop.  `.ok none` models the `-1`
error return (overflowed buffers, malformed result-binding start);
whitespace inside the argument stage is discarded unconditionally. -/
def plStep (st : EngineState) (fuelLeft : Nat) (s : PLState) (c : Char) :
    Except EngErr (Option PLState) :=
  match s.stage with
  | .commandS =>
    if c = ' ' ∨ c = '\t' then
      .ok (some { s with
        command := chompL s.command
        argc := 0
        stage := .argumentsS })
    else if s.command.length + 1 < COMMAND_MAX_SIZE then
      .ok (some { s with command := s.command ++ [c] })
    else .ok none
  | .argumentsS =>
    if c = ',' then
      match substituteVariables st fuelLeft s.command (chompL s.curArg) with
      | .error e => .error e
      | .ok (ca, _) =>
        match storeArg s.args (s.argc - 1) ca with
        | .error e => .error e
        | .ok args1 =>
          if s.argc = (ARGUMENT_ARRAY_MAX_SIZE : Int) then .ok none
          else .ok (some { s with args := args1, curArg := [] })
    else if c = ' ' ∨ c = '\t' then .ok (some s)
    else if c = '=' then
      match substituteVariables st fuelLeft s.command (chompL s.curArg) with
      | .error e => .error e
      | .ok (ca, _) =>
        match storeArg s.args (s.argc - 1) ca with
        | .error e => .error e
        | .ok args1 =>
          .ok (some { s with
            args := args1
            curArg := []
            stage := .setObjVarS })
    else
      if s.curArg.length + 1 < ARGUMENT_MAX_SIZE then
        .ok (some { s with
          argc := if s.curArg = [] then s.argc + 1 else s.argc
          curArg := s.curArg ++ [c] })
      else .ok none
  | .setObjVarS =>
    if s.curArg = [] then
      if c = '&' then .ok (some { s with curArg := ['&'] })
      else if c = ' ' ∨ c = '\t' then .ok (some s)
      else .ok none
    else if c = ' ' ∨ c = '\t' then .ok (some s)
    else
      if ARGUMENT_MAX_SIZE ≤ s.curArg.length + 1 then .error .ub
      else .ok (some { s with curArg := s.curArg ++ [c] })

/-- parse_line's character loop over the remaining input. -/
def plRun (st : EngineState) (fuelLeft : Nat) :
    List Char → PLState → Except EngErr (Option PLState)
  | [], s => .ok (some s)
  | c :: cs, s =>
    match plStep st fuelLeft s c with
    | .error e => .error e
    | .ok none => .ok none
    | .ok (some s1) => plRun st fuelLeft cs s1

/-- The argc fixups after parse_line's loop: an unfinished
result-binding stage counts one more argument, an unfinished command
stage means no arguments. -/
def plFinalArgc (s : PLState) : Int :=
  if s.stage = .setObjVarS then s.argc + 1
  else if s.stage = .commandS then 0 else s.argc

/-- The trailing argument of parse_line: chomp the current buffer and
run substitution on it only when the line ended inside the argument
stage (a pending result-binding token is taken literally). -/
def plFinalArg (st : EngineState) (fuelLeft : Nat) (s : PLState) :
    Except EngErr (List Char) :=
  if s.stage = .argumentsS then
    match substituteVariables st fuelLeft s.command (chompL s.curArg) with
    | .error e => .error e
    | .ok (ca1, _) => .ok ca1
  else .ok (chompL s.curArg)

/-- parse_line: strip the comment, run the loop, then settle the
unfinished stage and store the trailing argument (substituted only
when the line ended inside the argument stage).  `.ok none` is the
`-1` error return. -/
def parseLine (st : EngineState) (fuelLeft : Nat) (line : List Char) :
    Except EngErr (Option (List Char × List (List Char))) :=
  match plRun st fuelLeft (line.takeWhile (fun c => c ≠ '#'))
      ⟨.commandS, [], [], -1, []⟩ with
  | .error e => .error e
  | .ok none => .ok none
  | .ok (some s) =>
    if 0 < plFinalArgc s then
      match plFinalArg st fuelLeft s with
      | .error e => .error e
      | .ok ca1 =>
        match storeArg s.args (plFinalArgc s - 1) ca1 with
        | .error e => .error e
        | .ok args1 => .ok (some (s.command, args1))
    else .ok (some (s.command, s.args))

/-- add_history_line: append the raw line. -/
def addHistoryLine (st : EngineState) (line : List Char) : EngineState :=
  { st with history := st.history ++ [line] }

/-- The keyword dispatch of parse_command: object commands, `dimen`,
`odimen`, `set`, `layer`, `list`, `inspect`, otherwise a reported
non-fatal rejection.  Reading an argument slot that was never written
is undefined behaviour. -/
def dispatchCommand (st : EngineState) (cmd : List Char)
    (args : List (List Char)) : Except EngErr (Bool × EngineState) :=
  if 0 < isObjCommand cmd then
    match createObject st (isObjCommand cmd).toNat args with
    | .error e => .error e
    | .ok st1 => .ok (true, st1)
  else if cmd = "dimen".toList then createDimension st args false
  else if cmd = "odimen".toList then createDimension st args true
  else if cmd = "set".toList then
    match args.get? 0, args.get? 1 with
    | some a0, some a1 =>
      match setVariable st a0 a1 with
      | .error e => .error e
      | .ok st1 => .ok (true, st1)
    | _, _ => .error .ub
  else if cmd = "layer".toList then
    match args.get? 0, args.get? 1, args.get? 2 with
    | some a0, some a1, some a2 =>
      match setLayer st (atoiU8 a0) a1 a2 with
      | .error e => .error e
      | .ok st1 => .ok (true, st1)
    | _, _, _ => .error .ub
  else if cmd = "list".toList then .ok (true, st)
  else if cmd = "inspect".toList then
    match args.get? 0 with
    | some a0 =>
      match inspect st a0 with
      | .error e => .error e
      | .ok b => .ok (b, st)
    | none => .error .ub
  else .ok (false, st)

/-- parse_command: empty and comment lines are accepted no-ops that
still enter the history; otherwise tokenize, dispatch, and append to
the history exactly when the dispatch succeeded. -/
def parseCommand (fuelLeft : Nat) (st : EngineState) (line : List Char) :
    Except EngErr (Bool × EngineState) :=
  if line.headD nulChar = nulChar ∨ line.headD nulChar = '#' then
    .ok (true, addHistoryLine st line)
  else
    match parseLine st fuelLeft line with
    | .error e => .error e
    | .ok none => .ok (false, st)
    | .ok (some (cmd, args)) =>
      match dispatchCommand st cmd args with
      | .error e => .error e
      | .ok (false, st1) => .ok (false, st1)
      | .ok (true, st1) => .ok (true, addHistoryLine st1 line)

/-- parse_file's driving loop over a list of lines: feed each line to
parse_command, stopping at the first rejected line. -/
def runLines (fuelLeft : Nat) (st : EngineState) :
    List (List Char) → Except EngErr (Bool × EngineState)
  | [] => .ok (true, st)
  | l :: ls =>
    match parseCommand fuelLeft st l with
    | .error e => .error e
    | .ok (false, st1) => .ok (false, st1)
    | .ok (true, st1) => runLines fuelLeft st1 ls

/-- All containers empty, `last_object` unset. -/
def emptyState : EngineState := ⟨[], [], [], [], [], false, none⟩

/-- nanocad_init: zero counts and create the implicit layer 0
(`Default`, color f9f9f9). -/
def initState : EngineState :=
  match setLayer emptyState 0 "Default".toList "f9f9f9".toList with
  | .ok st => st
  | .error _ => emptyState

/-- The Euclidean distance label recomputed from a dimension's stored
measured endpoints, as `draw_dimension_text` in `graphics.c` renders
it: `sqrt` of the squared distance, shown rounded to the nearest
integer (`"%.0f"`). -/
def euclidDistance (a b : coord_t) : Int :=
  roundSqrt (((b.x - a.x) * (b.x - a.x) + (b.y - a.y) * (b.y - a.y))).toNat

/-- The session state after `set $pi, 3` from a fresh session. -/
def piState : EngineState :=
  match parseCommand 20 initState ("set $pi, 3".toList) with
  | .ok p => p.2
  | .error _ => initState

/-- The session state after `set $^a, 1` from a fresh session. -/
def caretState : EngineState :=
  match setVariable initState ("$^a".toList) ("1".toList) with
  | .ok st => st
  | .error _ => initState

/-- C1: the claim says every input-driven error condition (unknown
unit, invalid numeric character, variable not found, variable
redefinition, variable index out of range, layer-0 modification) is a
recoverable per-line rejection.  The code instead calls
`exit(EXIT_FAILURE)` on each of them: this theorem evaluates the full
`parse_command` pipeline on one concrete input line per condition and
shows the run ends in the fatal-exit outcome, not in the recoverable
`false` return. -/
theorem engine_exits_on_input_errors :
    parseCommand 20 initState ("layer 0, X, ffffff".toList)
      = .error .layerImmutable ∧
    runLines 20 initState ["set $a, 1".toList, "set $a, 2".toList]
      = .error .varRedefinition ∧
    parseCommand 20 initState ("line x5q;y0, x1;y1".toList)
      = .error .unitUnknown ∧
    parseCommand 20 initState ("line x5A;y0, x1;y1".toList)
      = .error .invalidNumChar ∧
    parseCommand 20 initState ("line $z, x1;y1".toList)
      = .error .varNotFound ∧
    runLines 20 initState
      ["line x0;y0, x1;y1 = &a".toList, "line &a[7], x1;y1".toList]
      = .error .varIndexOutOfRange := by
  refine ⟨by decide, by decide, by decide, by decide, by decide, by decide⟩

/-- C2: an offset dimension `odimen x0;y0, x100;y0, u, 10` appends a
dimension whose annotation line runs from (0,10) to (100,10), stores
the measured endpoints (0,0) and (100,0) unchanged, and the Euclidean
distance recomputed from the stored measured endpoints is 100. -/
theorem offset_dimension_u_horizontal :
    (parseCommand 20 initState ("odimen x0;y0, x100;y0, u, 10".toList)).map
        (fun p => (p.1, p.2.dimensions))
      = .ok (true, [⟨⟨0, 0⟩, ⟨100, 0⟩, ⟨0, 10⟩, ⟨100, 10⟩, 0⟩]) ∧
    createDimension initState
        ["x0;y0".toList, "x100;y0".toList, "u".toList, "10".toList] true
      = .ok (true, { initState with
          dimensions := [⟨⟨0, 0⟩, ⟨100, 0⟩, ⟨0, 10⟩, ⟨100, 10⟩, 0⟩] }) ∧
    euclidDistance ⟨0, 0⟩ ⟨100, 0⟩ = 100 := by
  refine ⟨by decide, by decide, by decide⟩

/-- C3: after `set $pi, 3` the store holds `pi = 3` and rendering `pi`
does give `3.000000`, but substituting in the argument `x$pi;y0` does
not yield `x3.000000;y0` with count 1: the scan keeps accumulating
name characters past the `;` that ends the reference, looks up the
name `piy0`, and the engine exits with variable-not-found.  The last
conjunct exhibits the scanner's wrong name accumulation. -/
theorem substitution_mid_sigil_fatal :
    (parseCommand 20 initState ("set $pi, 3".toList)).map
        (fun p => (p.1, p.2.vars))
      = .ok (true, [⟨'$', "pi".toList, .fixed 3⟩]) ∧
    variableStrval piState ("pi".toList) 0 = .ok ("3.000000".toList) ∧
    substituteVariables piState 20 ("line".toList) ("x$pi;y0".toList)
      = .error .varNotFound ∧
    subScan ("x$pi;y0".toList) 0 none none [] 0
      = .ok ⟨some 1, some 4, "piy0".toList, 0⟩ := by
  refine ⟨by decide, by decide, by decide, by decide⟩

/-- C4 counterexample: the variable name `^a` (stored by `set $^a, 1`)
already exists and is not the pseudo-variable `^`, yet redefining it
succeeds — set_variable only checks whether the stored name begins
with `^`, so instead of failing with VariableRedefinition it appends a
duplicate entry. -/
theorem set_variable_caret_prefix_counterexample :
    setVariable initState ("$^a".toList) ("1".toList) = .ok caretState ∧
    (getVariable caretState ("^a".toList)).isSome = true ∧
    ("^a".toList ≠ ['^']) ∧
    setVariable caretState ("$^a".toList) ("2".toList)
      = .ok { caretState with
          vars := caretState.vars ++ [⟨'$', "^a".toList, .fixed 2⟩] } := by
  refine ⟨by decide, by decide, by decide, by decide⟩

/-- C5: the claim says create_dimension rejects every argument count
outside 4–5 and appends nothing; but the guard `(argc < 4) && (argc >
5)` in the source is unsatisfiable, so a 6-argument call sails
through, appends a dimension, and reports success. -/
theorem create_dimension_arity_check_dead :
    (["x0;y0".toList, "x10;y0".toList, "x0;y5".toList, "x10;y5".toList,
      "q".toList, "r".toList] : List (List Char)).length = 6 ∧
    (createDimension initState
        ["x0;y0".toList, "x10;y0".toList, "x0;y5".toList, "x10;y5".toList,
         "q".toList, "r".toList] false).map
        (fun p => (p.1, p.2.dimensions.length))
      = .ok (true, 1) := by
  refine ⟨by decide, by decide⟩

/-- C6: layer 0 is indeed immutable once the implicit default exists,
but layer numbers do not stay unique: a second `layer 1` line is
accepted and appends a second layer numbered 1 (the source carries a
TODO for the missing duplicate check). -/
theorem duplicate_layer_number_accepted :
    parseCommand 20 initState ("layer 0, Y, ffffff".toList)
      = .error .layerImmutable ∧
    (runLines 20 initState
        ["layer 1, A, 000000".toList, "layer 1, B, 000000".toList]).map
        (fun p => (p.1, p.2.layers.map layer_t.num))
      = .ok (true, [0, 1, 1]) := by
  refine ⟨by decide, by decide⟩

/-- Binding a success in the `Except` monad applies the
continuation. -/
theorem exbind_ok {α β : Type} (a : α) (f : α → Except EngErr β) :
    ((Except.ok a : Except EngErr α) >>= f) = f a := rfl

/-- Binding an error in the `Except` monad propagates it. -/
theorem exbind_err {α β : Type} (e : EngErr) (f : α → Except EngErr β) :
    ((Except.error e : Except EngErr α) >>= f) = .error e := rfl

/-- pure in the `Except` monad is `.ok`. -/
theorem expure_ok {α : Type} (a : α) :
    (pure a : Except EngErr α) = .ok a := rfl

/-- Scanning numeric characters in the number stage appends them all
to the `strnum` buffer. -/
theorem tbScan_numeric (cs : List Char) : ∀ a u : List Char,
    (∀ c ∈ cs, isNumC c = true) →
    a.length + cs.length + 1 ≤ ARGUMENT_MAX_SIZE →
    List.foldlM tbStep ⟨.number, some a, u⟩ cs
      = .ok (⟨.number, some (a ++ cs), u⟩ : TBState) := by
  induction cs with
  | nil => intro a u _ _; simp [List.foldlM_nil, expure_ok, List.append_nil]
  | cons c cs ih =>
    intro a u hall hb
    have hc : isNumC c = true := hall c (by simp)
    have hb30 : a.length + cs.length + 2 ≤ 30 := by
      have := hb
      simp only [show ARGUMENT_MAX_SIZE = 30 from rfl, List.length_cons]
        at this
      omega
    have hlen : ¬ (ARGUMENT_MAX_SIZE ≤ a.length + 1) := by
      simp only [show ARGUMENT_MAX_SIZE = 30 from rfl]
      omega
    simp only [List.foldlM_cons, tbStep, hc, if_true, Option.getD_some, hlen,
      if_false, exbind_ok]
    have := ih (a ++ [c]) u (fun d hd => hall d (by simp [hd]))
      (by simp only [show ARGUMENT_MAX_SIZE = 30 from rfl,
            List.length_append, List.length_cons, List.length_nil]; omega)
    simpa [List.append_assoc] using this

/-- Scanning a nonempty all-numeric string from the initial scanner
state fills `strnum` with exactly that string. -/
theorem tbScan_numeric_start (s : List Char) (hne : s ≠ [])
    (hall : ∀ c ∈ s, isNumC c = true)
    (hb : s.length + 1 ≤ ARGUMENT_MAX_SIZE) :
    List.foldlM tbStep ⟨.number, none, []⟩ s
      = .ok (⟨.number, some s, []⟩ : TBState) := by
  cases s with
  | nil => exact absurd rfl hne
  | cons c cs =>
    have hc : isNumC c = true := hall c (by simp)
    have hlen : ¬ (ARGUMENT_MAX_SIZE ≤ ([] : List Char).length + 1) := by
      simp [show ARGUMENT_MAX_SIZE = 30 from rfl]
    simp only [List.foldlM_cons, tbStep, hc, if_true, Option.getD_none, hlen,
      if_false, exbind_ok, List.nil_append]
    exact tbScan_numeric cs [c] []
      (fun d hd => hall d (by simp [hd]))
      (by simp only [show ARGUMENT_MAX_SIZE = 30 from rfl,
            List.length_cons, List.length_nil] at hb ⊢; omega)

/-- `qscale` agrees with rational multiplication by a natural. -/
theorem qscale_eq (q : ℚ) (k : Nat) : qscale q k = q * (k : ℚ) := by
  have hden : ((q.den : ℚ)) ≠ 0 := by
    exact_mod_cast q.den_nz
  have hnum : (q.num : ℚ) = q * (q.den : ℚ) :=
    (div_eq_iff hden).mp (Rat.num_div_den q)
  rw [qscale, Rat.mkRat_eq_div, div_eq_iff hden]
  push_cast
  rw [hnum]
  ring

/-- C8: to_base_unit multiplies the parsed value by 1 for no unit or
`mm`, by 10 for `cm` and by 1000 for `m`, truncating to an integer;
in particular 150cm and 1.5m both give 1500, 30mm gives 30 and a bare
5 gives 5.  The general statements hold for every nonempty numeric
string that fits the scanner's buffer. -/
theorem to_base_unit_spec :
    toBaseUnit ("150cm".toList) = .ok 1500 ∧
    toBaseUnit ("1.5m".toList) = .ok 1500 ∧
    toBaseUnit ("30mm".toList) = .ok 30 ∧
    toBaseUnit ("5".toList) = .ok 5 ∧
    ∀ s : List Char, s ≠ [] → (∀ c ∈ s, isNumC c = true) →
      s.length + 1 ≤ ARGUMENT_MAX_SIZE →
      toBaseUnit s = .ok (ratTrunc (atofQ s)) ∧
      toBaseUnit (s ++ "mm".toList) = .ok (ratTrunc (atofQ s)) ∧
      toBaseUnit (s ++ "cm".toList) = .ok (ratTrunc (atofQ s * 10)) ∧
      toBaseUnit (s ++ "m".toList) = .ok (ratTrunc (atofQ s * 1000)) := by
  refine ⟨by decide, by decide, by decide, by decide, ?_⟩
  intro s hne hall hb
  have hscan := tbScan_numeric_start s hne hall hb
  have hNm : isNumC 'm' = false := by decide
  have hNc : isNumC 'c' = false := by decide
  have hLm : isLowerC 'm' = true := by decide
  have hLc : isLowerC 'c' = true := by decide
  have hm : List.foldlM tbStep (⟨.number, some s, []⟩ : TBState)
      ("m".toList) = .ok (⟨.unitStage, some s, ['m']⟩ : TBState) := by
    simp [List.foldlM_cons, List.foldlM_nil, tbStep, hNm, hLm, exbind_ok,
      expure_ok]
  have hmm : List.foldlM tbStep (⟨.number, some s, []⟩ : TBState)
      ("mm".toList) = .ok (⟨.unitStage, some s, ['m', 'm']⟩ : TBState) := by
    simp [List.foldlM_cons, List.foldlM_nil, tbStep, hNm, hLm, exbind_ok,
      expure_ok]
  have hcm : List.foldlM tbStep (⟨.number, some s, []⟩ : TBState)
      ("cm".toList) = .ok (⟨.unitStage, some s, ['c', 'm']⟩ : TBState) := by
    simp [List.foldlM_cons, List.foldlM_nil, tbStep, hNm, hNc, hLm, hLc,
      exbind_ok, expure_ok]
  refine ⟨?_, ?_, ?_, ?_⟩
  · rw [toBaseUnit, hscan, exbind_ok]
    simp
  · rw [toBaseUnit, List.foldlM_append, hscan, exbind_ok, hmm, exbind_ok]
    simp
  · rw [toBaseUnit, List.foldlM_append, hscan, exbind_ok, hcm, exbind_ok]
    simp [qscale_eq]
  · rw [toBaseUnit, List.foldlM_append, hscan, exbind_ok, hm, exbind_ok]
    simp [qscale_eq]

/-- Witness for `to_base_unit_spec`: its general part applied to the
concrete numeric string 150. -/
theorem to_base_unit_spec_witness :
    toBaseUnit ("150".toList) = .ok (ratTrunc (atofQ ("150".toList))) ∧
    toBaseUnit ("150".toList ++ "cm".toList)
      = .ok (ratTrunc (atofQ ("150".toList) * 10)) :=
  ⟨(to_base_unit_spec.2.2.2.2 ("150".toList) (by decide) (by decide)
      (by decide)).1,
   (to_base_unit_spec.2.2.2.2 ("150".toList) (by decide) (by decide)
      (by decide)).2.2.1⟩

/-- Scanning non-`;` characters in the COORDX stage appends them to
the x buffer. -/
theorem pcScan_coordX (cs : List Char) : ∀ a : List Char,
    ∀ op : Char, ∀ cyv : Option (List Char),
    (∀ c ∈ cs, c ≠ ';') →
    a.length + cs.length + 1 ≤ ARGUMENT_MAX_SIZE →
    List.foldlM pcStep (⟨.coordX, op, some a, cyv⟩ : PCState) cs
      = .ok (⟨.coordX, op, some (a ++ cs), cyv⟩ : PCState) := by
  induction cs with
  | nil => intro a op cyv _ _; simp [List.foldlM_nil, expure_ok]
  | cons c cs ih =>
    intro a op cyv hall hb
    have hc : c ≠ ';' := hall c (by simp)
    have hlen : ¬ (ARGUMENT_MAX_SIZE ≤ a.length + 1) := by
      simp only [show ARGUMENT_MAX_SIZE = 30 from rfl, List.length_cons]
        at hb ⊢
      omega
    simp only [List.foldlM_cons, pcStep, hc, if_false, pcAppend,
      Option.getD_some, hlen, exbind_ok]
    have := ih (a ++ [c]) op cyv (fun d hd => hall d (by simp [hd]))
      (by simp only [show ARGUMENT_MAX_SIZE = 30 from rfl,
            List.length_append, List.length_cons, List.length_nil]
            at hb ⊢; omega)
    simpa [List.append_assoc] using this

/-- Scanning characters in the COORDY stage appends them all to the y
buffer. -/
theorem pcScan_coordY (cs : List Char) : ∀ a : List Char,
    ∀ op : Char, ∀ cxv : Option (List Char),
    a.length + cs.length + 1 ≤ ARGUMENT_MAX_SIZE →
    List.foldlM pcStep (⟨.coordY, op, cxv, some a⟩ : PCState) cs
      = .ok (⟨.coordY, op, cxv, some (a ++ cs)⟩ : PCState) := by
  induction cs with
  | nil => intro a op cxv _; simp [List.foldlM_nil, expure_ok]
  | cons c cs ih =>
    intro a op cxv hb
    have hlen : ¬ (ARGUMENT_MAX_SIZE ≤ a.length + 1) := by
      simp only [show ARGUMENT_MAX_SIZE = 30 from rfl, List.length_cons]
        at hb ⊢
      omega
    simp only [List.foldlM_cons, pcStep, pcAppend, Option.getD_some, hlen,
      if_false, exbind_ok]
    have := ih (a ++ [c]) op cxv
      (by simp only [show ARGUMENT_MAX_SIZE = 30 from rfl,
            List.length_append, List.length_cons, List.length_nil]
            at hb ⊢; omega)
    simpa [List.append_assoc] using this

/-- Scanning characters in the WIDTH stage appends them all to the x
buffer. -/
theorem pcScan_width (cs : List Char) : ∀ a : List Char,
    ∀ op : Char, ∀ cyv : Option (List Char),
    a.length + cs.length + 1 ≤ ARGUMENT_MAX_SIZE →
    List.foldlM pcStep (⟨.widthStage, op, some a, cyv⟩ : PCState) cs
      = .ok (⟨.widthStage, op, some (a ++ cs), cyv⟩ : PCState) := by
  induction cs with
  | nil => intro a op cyv _; simp [List.foldlM_nil, expure_ok]
  | cons c cs ih =>
    intro a op cyv hb
    have hlen : ¬ (ARGUMENT_MAX_SIZE ≤ a.length + 1) := by
      simp only [show ARGUMENT_MAX_SIZE = 30 from rfl, List.length_cons]
        at hb ⊢
      omega
    simp only [List.foldlM_cons, pcStep, pcAppend, Option.getD_some, hlen,
      if_false, exbind_ok]
    have := ih (a ++ [c]) op cyv
      (by simp only [show ARGUMENT_MAX_SIZE = 30 from rfl,
            List.length_append, List.length_cons, List.length_nil]
            at hb ⊢; omega)
    simpa [List.append_assoc] using this

/-- Scanning characters in the HEIGHT stage appends them all to the y
buffer. -/
theorem pcScan_height (cs : List Char) : ∀ a : List Char,
    ∀ op : Char, ∀ cxv : Option (List Char),
    a.length + cs.length + 1 ≤ ARGUMENT_MAX_SIZE →
    List.foldlM pcStep (⟨.heightStage, op, cxv, some a⟩ : PCState) cs
      = .ok (⟨.heightStage, op, cxv, some (a ++ cs)⟩ : PCState) := by
  induction cs with
  | nil => intro a op cxv _; simp [List.foldlM_nil, expure_ok]
  | cons c cs ih =>
    intro a op cxv hb
    have hlen : ¬ (ARGUMENT_MAX_SIZE ≤ a.length + 1) := by
      simp only [show ARGUMENT_MAX_SIZE = 30 from rfl, List.length_cons]
        at hb ⊢
      omega
    simp only [List.foldlM_cons, pcStep, pcAppend, Option.getD_some, hlen,
      if_false, exbind_ok]
    have := ih (a ++ [c]) op cxv
      (by simp only [show ARGUMENT_MAX_SIZE = 30 from rfl,
            List.length_append, List.length_cons, List.length_nil]
            at hb ⊢; omega)
    simpa [List.append_assoc] using this

/-- C7: parse_coordinates maps the absolute form `x<NUM>;y<NUM>` with
no base to the base-unit conversions of the two number strings, and
with a base the width-relative form `w<v>` to `(bx + v, by)` and the
height-relative form `h<v>` to `(bx, by + v)`; in particular
`x10;y20` gives (10,20) and, with base (10,20), `w5` gives (15,20)
and `h5` gives (10,25). -/
theorem parse_coordinates_forms :
    parseCoordinates ("x10;y20".toList) none = .ok ⟨10, 20⟩ ∧
    parseCoordinates ("w5".toList) (some ⟨10, 20⟩) = .ok ⟨15, 20⟩ ∧
    parseCoordinates ("h5".toList) (some ⟨10, 20⟩) = .ok ⟨10, 25⟩ ∧
    (∀ sx sy : List Char, sx ≠ [] → sy ≠ [] →
      (∀ c ∈ sx, c ≠ ';') →
      sx.length + 1 ≤ ARGUMENT_MAX_SIZE → sy.length + 1 ≤ ARGUMENT_MAX_SIZE →
      parseCoordinates ('x' :: sx ++ ';' :: 'y' :: sy) none
        = (do
            let x ← toBaseUnit sx
            let y ← toBaseUnit sy
            Except.ok (⟨x, y⟩ : coord_t))) ∧
    (∀ s : List Char, ∀ b : coord_t, ∀ v : Int, s ≠ [] →
      s.length + 1 ≤ ARGUMENT_MAX_SIZE →
      toBaseUnit s = .ok v →
      parseCoordinates ('w' :: s) (some b) = .ok ⟨b.x + v, b.y⟩) ∧
    (∀ s : List Char, ∀ b : coord_t, ∀ v : Int, s ≠ [] →
      s.length + 1 ≤ ARGUMENT_MAX_SIZE →
      toBaseUnit s = .ok v →
      parseCoordinates ('h' :: s) (some b) = .ok ⟨b.x, b.y + v⟩) := by
  refine ⟨by decide, by decide, by decide, ?_, ?_, ?_⟩
  · intro sx sy hx hy hnosemi hbx hby
    obtain ⟨c, cs, rfl⟩ : ∃ c cs, sx = c :: cs := by
      cases sx with
      | nil => exact absurd rfl hx
      | cons c cs => exact ⟨c, cs, rfl⟩
    obtain ⟨d, ds, rfl⟩ : ∃ d ds, sy = d :: ds := by
      cases sy with
      | nil => exact absurd rfl hy
      | cons d ds => exact ⟨d, ds, rfl⟩
    have hc : c ≠ ';' := hnosemi c (by simp)
    have hx1 : pcStep (⟨.start, nulChar, none, none⟩ : PCState) 'x'
        = .ok (⟨.coordX, nulChar, none, none⟩ : PCState) := by decide
    have hxc : pcStep (⟨.coordX, nulChar, none, none⟩ : PCState) c
        = .ok (⟨.coordX, nulChar, some [c], none⟩ : PCState) := by
      simp [pcStep, hc, pcAppend, exbind_ok,
        show ARGUMENT_MAX_SIZE = 30 from rfl]
    have hsx := pcScan_coordX cs [c] nulChar none
      (fun d hd => hnosemi d (by simp [hd]))
      (by simp only [show ARGUMENT_MAX_SIZE = 30 from rfl,
            List.length_cons, List.length_nil] at hbx ⊢; omega)
    have hsemi : pcStep (⟨.coordX, nulChar, some (c :: cs), none⟩ : PCState)
        ';' = .ok (⟨.nextArg, nulChar, some (c :: cs), none⟩ : PCState) := by
      simp [pcStep]
    have hyc : pcStep (⟨.nextArg, nulChar, some (c :: cs), none⟩ : PCState)
        'y' = .ok (⟨.coordY, nulChar, some (c :: cs), none⟩ : PCState) := by
      simp [pcStep]
    have hd1 : pcStep (⟨.coordY, nulChar, some (c :: cs), none⟩ : PCState) d
        = .ok (⟨.coordY, nulChar, some (c :: cs), some [d]⟩ : PCState) := by
      simp [pcStep, pcAppend, exbind_ok,
        show ARGUMENT_MAX_SIZE = 30 from rfl]
    have hsy := pcScan_coordY ds [d] nulChar (some (c :: cs))
      (by simp only [show ARGUMENT_MAX_SIZE = 30 from rfl,
            List.length_cons, List.length_nil] at hby ⊢; omega)
    simp only [parseCoordinates, List.foldlM_cons, List.foldlM_append, hx1,
      exbind_ok, hxc, hsx, List.singleton_append, hsemi, hyc, hd1, hsy,
      Option.getD_some]
  · intro s b v hne hb htb
    obtain ⟨c, cs, rfl⟩ : ∃ c cs, s = c :: cs := by
      cases s with
      | nil => exact absurd rfl hne
      | cons c cs => exact ⟨c, cs, rfl⟩
    have hw1 : pcStep (⟨.start, nulChar, none, none⟩ : PCState) 'w'
        = .ok (⟨.widthStage, 'w', none, none⟩ : PCState) := by decide
    have hwc : pcStep (⟨.widthStage, 'w', none, none⟩ : PCState) c
        = .ok (⟨.widthStage, 'w', some [c], none⟩ : PCState) := by
      simp [pcStep, pcAppend, exbind_ok,
        show ARGUMENT_MAX_SIZE = 30 from rfl]
    have hws := pcScan_width cs [c] 'w' none
      (by simp only [show ARGUMENT_MAX_SIZE = 30 from rfl,
            List.length_cons, List.length_nil] at hb ⊢; omega)
    have hzero : toBaseUnit (['0'] : List Char) = .ok 0 := by decide
    simp only [parseCoordinates, List.foldlM_cons, hw1, exbind_ok, hwc, hws,
      List.singleton_append, Option.getD_some, Option.getD_none, htb, hzero]
    have hop : ((('w' : Char) ≠ nulChar)) := by decide
    simp only [hop, if_true, ne_eq, not_false_eq_true, calcCoordinate,
      if_pos rfl, reduceIte, exbind_ok]
    rw [Int.add_comm]
  · intro s b v hne hb htb
    obtain ⟨c, cs, rfl⟩ : ∃ c cs, s = c :: cs := by
      cases s with
      | nil => exact absurd rfl hne
      | cons c cs => exact ⟨c, cs, rfl⟩
    have hh1 : pcStep (⟨.start, nulChar, none, none⟩ : PCState) 'h'
        = .ok (⟨.heightStage, 'h', none, none⟩ : PCState) := by decide
    have hhc : pcStep (⟨.heightStage, 'h', none, none⟩ : PCState) c
        = .ok (⟨.heightStage, 'h', none, some [c]⟩ : PCState) := by
      simp [pcStep, pcAppend, exbind_ok,
        show ARGUMENT_MAX_SIZE = 30 from rfl]
    have hhs := pcScan_height cs [c] 'h' none
      (by simp only [show ARGUMENT_MAX_SIZE = 30 from rfl,
            List.length_cons, List.length_nil] at hb ⊢; omega)
    have hzero : toBaseUnit (['0'] : List Char) = .ok 0 := by decide
    simp only [parseCoordinates, List.foldlM_cons, hh1, exbind_ok, hhc, hhs,
      List.singleton_append, Option.getD_some, Option.getD_none, htb, hzero]
    have hop : ((('h' : Char) ≠ nulChar)) := by decide
    simp only [hop, if_true, ne_eq, not_false_eq_true, calcCoordinate,
      exbind_ok]
    have hhw : ¬ (('h' : Char) = 'w') := by decide
    simp only [hhw, if_false, if_pos rfl, reduceIte]
    rw [Int.add_comm]

/-- Witness for `parse_coordinates_forms`: the general absolute and
relative clauses applied at the concrete strings of the claim. -/
theorem parse_coordinates_forms_witness :
    parseCoordinates ('x' :: "10".toList ++ ';' :: 'y' :: "20".toList) none
      = (do
          let x ← toBaseUnit ("10".toList)
          let y ← toBaseUnit ("20".toList)
          Except.ok (⟨x, y⟩ : coord_t)) ∧
    parseCoordinates ('w' :: "5".toList) (some ⟨10, 20⟩)
      = .ok ⟨10 + 5, 20⟩ :=
  ⟨parse_coordinates_forms.2.2.2.1 ("10".toList) ("20".toList) (by decide)
      (by decide) (by decide) (by decide) (by decide),
   parse_coordinates_forms.2.2.2.2.1 ("5".toList) ⟨10, 20⟩ 5 (by decide)
      (by decide) (by decide)⟩

/-- Unfolding a successful bind in the `Except` monad. -/
theorem exbind_ok_iff {α β : Type} (A : Except EngErr α)
    (f : α → Except EngErr β) (b : β) :
    (A >>= f) = .ok b ↔ ∃ a, A = .ok a ∧ f a = .ok b := by
  cases A with
  | error e =>
    constructor
    · intro h; exact absurd h (by simp [exbind_err])
    · rintro ⟨a, ha, _⟩; exact absurd ha (by simp)
  | ok a =>
    constructor
    · intro h; exact ⟨a, rfl, h⟩
    · rintro ⟨a1, ha, hf⟩
      obtain rfl : a = a1 := by simpa using ha
      exact hf

/-- setVariableStore never touches the history. -/
theorem setVariableStore_history (st : EngineState) (ty : Char)
    (nm : List Char) (v : VarValue) :
    (setVariableStore st ty nm v).history = st.history := by
  rw [setVariableStore]
  split <;> rfl

/-- setVariableParsed never touches the history. -/
theorem setVariableParsed_history (st : EngineState) (ty : Char)
    (nm value : List Char) (st1 : EngineState)
    (h : setVariableParsed st ty nm value = .ok st1) :
    st1.history = st.history := by
  rw [setVariableParsed] at h
  repeat' split at h
  all_goals
    first
    | exact Except.noConfusion h
    | (simp only [Except.ok.injEq] at h
       subst h
       first
       | rfl
       | apply setVariableStore_history)

/-- set_variable never touches the history. -/
theorem setVariable_history (st : EngineState) (name value : List Char)
    (st1 : EngineState) (h : setVariable st name value = .ok st1) :
    st1.history = st.history := by
  rw [setVariable.eq_def] at h
  repeat' split at h
  all_goals
    first
    | exact Except.noConfusion h
    | exact setVariableParsed_history _ _ _ _ _ h

/-- set_layer never touches the history. -/
theorem setLayer_history (st : EngineState) (num : Nat)
    (name color : List Char) (st1 : EngineState)
    (h : setLayer st num name color = .ok st1) :
    st1.history = st.history := by
  rw [setLayer] at h
  split at h
  · cases h
  · rw [exbind_ok_iff] at h
    obtain ⟨col, _, h⟩ := h
    obtain rfl : _ = st1 := by simpa using h
    rfl

/-- setLastObjectLayer never touches the history. -/
theorem setLastObjectLayer_history (st : EngineState) (num : Nat) :
    (setLastObjectLayer st num).history = st.history := rfl

/-- create_object never touches the history. -/
theorem createObject_history (st : EngineState) (ty : Nat)
    (args : List (List Char)) (st1 : EngineState)
    (h : createObject st ty args = .ok st1) :
    st1.history = st.history := by
  rw [createObject] at h
  split at h
  case isFalse =>
    rw [exbind_err] at h
    cases h
  case isTrue =>
    rw [exbind_ok_iff] at h
    obtain ⟨a0, _, h⟩ := h
    rw [exbind_ok_iff] at h
    obtain ⟨a1, _, h⟩ := h
    rw [exbind_ok_iff] at h
    obtain ⟨c0, _, h⟩ := h
    rw [exbind_ok_iff] at h
    obtain ⟨c1, _, h⟩ := h
    rw [exbind_ok_iff] at h
    obtain ⟨coords, _, h⟩ := h
    simp only at h
    rw [exbind_ok_iff] at h
    obtain ⟨st2, hst2, h⟩ := h
    have e2 : st2.history = st.history := by
      have := setVariable_history _ _ _ _ hst2
      simpa using this
    split at h
    · cases h
    · split at h
      · rw [exbind_ok_iff] at h
        obtain ⟨st3, hst3, h⟩ := h
        have e3 : st3.history = st2.history :=
          setVariable_history _ _ _ _ hst3
        split at h
        · rw [exbind_err] at h
          cases h
        · rw [exbind_ok_iff] at h
          obtain ⟨last2, hl, h⟩ := h
          obtain rfl : (st3, args.length - 2) = last2 := by
            simpa [expure_ok] using hl
          split at h
          · rw [exbind_ok_iff] at h
            obtain ⟨num, _, h⟩ := h
            obtain rfl : setLastObjectLayer st3 num = st1 := by
              simpa [expure_ok] using h
            rw [setLastObjectLayer_history]
            rw [e3, e2]
          · obtain rfl : st3 = st1 := by simpa [expure_ok] using h
            rw [e3, e2]
      · rw [exbind_ok_iff] at h
        obtain ⟨last2, hl, h⟩ := h
        obtain rfl : (st2, args.length - 1) = last2 := by
          simpa [expure_ok] using hl
        split at h
        · rw [exbind_ok_iff] at h
          obtain ⟨num, _, h⟩ := h
          obtain rfl : setLastObjectLayer st2 num = st1 := by
            simpa [expure_ok] using h
          rw [setLastObjectLayer_history]
          rw [e2]
        · obtain rfl : st2 = st1 := by simpa [expure_ok] using h
          rw [e2]

/-- create_dimension never touches the history. -/
theorem createDimension_history (st : EngineState)
    (args : List (List Char)) (isOffset : Bool) (b : Bool)
    (st1 : EngineState)
    (h : createDimension st args isOffset = .ok (b, st1)) :
    st1.history = st.history := by
  rw [createDimension] at h
  split at h
  · cases h
  · simp only [Except.ok.injEq, Prod.mk.injEq] at h
    obtain ⟨_, rfl⟩ := h
    rfl
  · simp only [Except.ok.injEq, Prod.mk.injEq] at h
    obtain ⟨_, rfl⟩ := h
    rfl

/-- The command dispatch never touches the history (it is appended
afterwards by parse_command on success only). -/
theorem dispatchCommand_history (st : EngineState) (cmd : List Char)
    (args : List (List Char)) (b : Bool) (st1 : EngineState)
    (h : dispatchCommand st cmd args = .ok (b, st1)) :
    st1.history = st.history := by
  rw [dispatchCommand] at h
  repeat' split at h
  all_goals
    first
    | exact Except.noConfusion h
    | exact createDimension_history _ _ _ _ _ h
    | (simp only [Except.ok.injEq, Prod.mk.injEq] at h
       obtain ⟨_, rfl⟩ := h
       first
       | rfl
       | solve_by_elim [createObject_history, setVariable_history,
           setLayer_history])

/-- parse_command appends exactly the raw accepted line to the
history, and appends nothing when the line is rejected. -/
theorem parseCommand_history (fuelLeft : Nat) (st : EngineState)
    (line : List Char) (b : Bool) (st1 : EngineState)
    (h : parseCommand fuelLeft st line = .ok (b, st1)) :
    st1.history = if b then st.history ++ [line] else st.history := by
  rw [parseCommand] at h
  split at h
  · simp only [Except.ok.injEq, Prod.mk.injEq] at h
    obtain ⟨rfl, rfl⟩ := h
    simp [addHistoryLine]
  · split at h
    · cases h
    · simp only [Except.ok.injEq, Prod.mk.injEq] at h
      obtain ⟨rfl, rfl⟩ := h
      simp
    · split at h
      · cases h
      · have hd := dispatchCommand_history _ _ _ _ _ (by assumption)
        simp only [Except.ok.injEq, Prod.mk.injEq] at h
        obtain ⟨rfl, rfl⟩ := h
        simpa using hd
      · have hd := dispatchCommand_history _ _ _ _ _ (by assumption)
        simp only [Except.ok.injEq, Prod.mk.injEq] at h
        obtain ⟨rfl, rfl⟩ := h
        simp [addHistoryLine, hd]

/-- Feeding a list of lines that are all accepted appends exactly
those lines to the history, in order. -/
theorem runLines_history (lines : List (List Char)) : ∀ fuelLeft : Nat,
    ∀ st st' : EngineState,
    runLines fuelLeft st lines = .ok (true, st') →
    st'.history = st.history ++ lines := by
  induction lines with
  | nil =>
    intro f st st' h
    simp only [runLines, Except.ok.injEq, Prod.mk.injEq, true_and] at h
    subst h
    simp
  | cons l ls ih =>
    intro f st st' h
    simp only [runLines] at h
    split at h
    · cases h
    · simp only [Except.ok.injEq, Prod.mk.injEq] at h
      exact absurd h.1 (by simp)
    · have h1 := parseCommand_history _ _ _ _ _ (by assumption)
      have h2 := ih _ _ _ h
      rw [h2, h1]
      simp

/-- The session state after running the three accepted lines of the
witness below. -/
def c9End : EngineState :=
  match runLines 20 initState
      ["".toList, "# hi".toList, "set $a, 3".toList] with
  | .ok p => p.2
  | .error _ => initState

/-- C9: after any sequence of accepted lines — empty and comment-only
lines included — the history holds exactly those raw line texts, in
input order, appended to what was there before; and a rejected line
adds no history entry. -/
theorem history_records_accepted_lines :
    (∀ fuelLeft : Nat, ∀ st st' : EngineState,
      ∀ lines : List (List Char),
      runLines fuelLeft st lines = .ok (true, st') →
      st'.history = st.history ++ lines) ∧
    (∀ fuelLeft : Nat, ∀ st st' : EngineState, ∀ line : List Char,
      parseCommand fuelLeft st line = .ok (false, st') →
      st'.history = st.history) := by
  constructor
  · intro f st st' lines h
    exact runLines_history lines f st st' h
  · intro f st st' line h
    have := parseCommand_history f st line false st' h
    simpa using this

/-- Witness for `history_records_accepted_lines`: a fresh session fed
an empty line, a comment line and a `set` line holds exactly those
three lines; the rejected line `foo bar` leaves the history alone. -/
theorem history_records_accepted_lines_witness :
    c9End.history = initState.history ++
      ["".toList, "# hi".toList, "set $a, 3".toList] ∧
    initState.history = initState.history :=
  ⟨history_records_accepted_lines.1 20 initState c9End
      ["".toList, "# hi".toList, "set $a, 3".toList] (by decide),
   history_records_accepted_lines.2 20 initState initState
      ("foo bar".toList) (by decide)⟩

/-- A string with neither spaces nor tabs. -/
def noWS (l : List Char) : Prop := ∀ c ∈ l, c ≠ ' ' ∧ c ≠ '\t'

/-- chomp output never contains whitespace at all: it truncates at the
first whitespace character. -/
theorem noWS_chompL (l : List Char) : noWS (chompL l) := by
  intro c hc
  have hp := List.mem_takeWhile_imp hc
  constructor
  · intro hcontra
    subst hcontra
    simp [isSpaceC] at hp
  · intro hcontra
    subst hcontra
    simp [isSpaceC] at hp

/-- Digit characters are not whitespace. -/
theorem digitChar_not_ws (d : Nat) (hd : d < 10) :
    digitChar d ≠ ' ' ∧ digitChar d ≠ '\t' := by
  have : ∀ e : Nat, e < 10 → digitChar e ≠ ' ' ∧ digitChar e ≠ '\t' := by
    decide
  exact this d hd

/-- The digit accumulator only adds digit characters. -/
theorem noWS_natCharsAux (fuelLeft : Nat) : ∀ n : Nat,
    ∀ acc : List Char, noWS acc → noWS (natCharsAux fuelLeft n acc) := by
  induction fuelLeft with
  | zero => intro n acc hacc; exact hacc
  | succ f ih =>
    intro n acc hacc
    rw [natCharsAux]
    split
    · exact hacc
    · apply ih
      intro c hc
      rcases List.mem_cons.mp hc with h | h
      · subst h
        exact digitChar_not_ws _ (Nat.mod_lt _ (by omega))
      · exact hacc c h

/-- Decimal renderings of naturals contain no whitespace. -/
theorem noWS_natChars (n : Nat) : noWS (natChars n) := by
  rw [natChars]
  split
  · intro c hc
    simp only [List.mem_singleton] at hc
    subst hc
    exact ⟨by decide, by decide⟩
  · exact noWS_natCharsAux _ _ _ (by intro c hc; simp at hc)

/-- Decimal renderings of integers contain no whitespace. -/
theorem noWS_intChars (i : Int) : noWS (intChars i) := by
  rw [intChars]
  split
  · intro c hc
    rcases List.mem_cons.mp hc with h | h
    · subst h; exact ⟨by decide, by decide⟩
    · exact noWS_natChars _ c h
  · exact noWS_natChars _

/-- noWS is preserved by take. -/
theorem noWS_take (l : List Char) (k : Nat) (h : noWS l) :
    noWS (l.take k) := fun c hc => h c (List.mem_of_mem_take hc)

/-- noWS is preserved by drop. -/
theorem noWS_drop (l : List Char) (k : Nat) (h : noWS l) :
    noWS (l.drop k) := fun c hc => h c (List.mem_of_mem_drop hc)

/-- noWS is preserved by append. -/
theorem noWS_append (l1 l2 : List Char) (h1 : noWS l1) (h2 : noWS l2) :
    noWS (l1 ++ l2) := by
  intro c hc
  rcases List.mem_append.mp hc with h | h
  · exact h1 c h
  · exact h2 c h

/-- Zero padding adds only zeros. -/
theorem noWS_padZeros (k : Nat) (l : List Char) (h : noWS l) :
    noWS (padZeros k l) := by
  apply noWS_append
  · intro c hc
    have := List.eq_of_mem_replicate hc
    subst this
    exact ⟨by decide, by decide⟩
  · exact h

/-- The %f rendering contains no whitespace. -/
theorem noWS_formatF (q : ℚ) : noWS (formatF q) := by
  rw [formatF]
  apply noWS_take
  split
  · intro c hc
    rcases List.mem_cons.mp hc with h | h
    · subst h; exact ⟨by decide, by decide⟩
    · revert h
      refine fun h => noWS_append _ _ (noWS_natChars _) ?_ c h
      intro c hc
      rcases List.mem_cons.mp hc with h | h
      · subst h; exact ⟨by decide, by decide⟩
      · exact noWS_padZeros _ _ (noWS_natChars _) c h
  · refine noWS_append _ _ (noWS_natChars _) ?_
    intro c hc
    rcases List.mem_cons.mp hc with h | h
    · subst h; exact ⟨by decide, by decide⟩
    · exact noWS_padZeros _ _ (noWS_natChars _) c h

/-- The coordinate rendering contains no whitespace. -/
theorem noWS_formatXY (x y : Int) : noWS (formatXY x y) := by
  rw [formatXY]
  apply noWS_take
  intro c hc
  rcases List.mem_cons.mp hc with h | h
  · subst h; exact ⟨by decide, by decide⟩
  · rcases List.mem_append.mp h with h | h
    · exact noWS_intChars _ c h
    · rcases List.mem_cons.mp h with h | h
      · subst h; exact ⟨by decide, by decide⟩
      · rcases List.mem_cons.mp h with h | h
        · subst h; exact ⟨by decide, by decide⟩
        · exact noWS_intChars _ c h

/-- Every string variable_strval produces is whitespace-free. -/
theorem noWS_variableStrval (st : EngineState) (name : List Char)
    (i : Nat) (s : List Char) (h : variableStrval st name i = .ok s) :
    noWS s := by
  rw [variableStrval] at h
  repeat' split at h
  all_goals
    first
    | exact Except.noConfusion h
    | (simp only [Except.ok.injEq] at h
       subst h
       first
       | exact noWS_formatF _
       | exact noWS_formatXY _ _)

/-- Substitution preserves freedom from whitespace: the spliced text is
a variable rendering, which is whitespace-free. -/
theorem noWS_substituteVariables (fuelLeft : Nat) : ∀ st : EngineState,
    ∀ command arg res : List Char, ∀ n : Nat,
    noWS arg →
    substituteVariables st fuelLeft command arg = .ok (res, n) →
    noWS res := by
  induction fuelLeft with
  | zero =>
    intro st command arg res n _ h
    exact Except.noConfusion h
  | succ f ih =>
    intro st command arg res n harg h
    rw [substituteVariables] at h
    split at h
    · simp only [Except.ok.injEq, Prod.mk.injEq] at h
      obtain ⟨rfl, _⟩ := h
      exact harg
    · split at h
      · simp only [Except.ok.injEq, Prod.mk.injEq] at h
        obtain ⟨rfl, _⟩ := h
        exact harg
      · split at h
        · exact Except.noConfusion h
        · split at h
          · simp only [Except.ok.injEq, Prod.mk.injEq] at h
            obtain ⟨rfl, _⟩ := h
            exact harg
          · split at h
            · exact Except.noConfusion h
            · split at h
              · exact Except.noConfusion h
              · split at h
                · exact Except.noConfusion h
                · split at h
                  · exact Except.noConfusion h
                  · simp only [Except.ok.injEq, Prod.mk.injEq] at h
                    obtain ⟨rfl, _⟩ := h
                    refine ih _ _ _ _ _ ?_ (by assumption)
                    refine noWS_append _ _
                      (noWS_append _ _ (noWS_take _ _ harg) ?_)
                      (noWS_drop _ _ harg)
                    exact noWS_variableStrval _ _ _ _ (by assumption)

/-- Storing a whitespace-free argument keeps every stored argument
whitespace-free. -/
theorem storeArg_noWS (args : List (List Char)) (idx : Int)
    (v : List Char) (args1 : List (List Char)) (hv : noWS v)
    (hall : ∀ a ∈ args, noWS a) (h : storeArg args idx v = .ok args1) :
    ∀ a ∈ args1, noWS a := by
  rw [storeArg] at h
  repeat' split at h
  all_goals
    first
    | exact Except.noConfusion h
    | (simp only [Except.ok.injEq] at h
       subst h
       intro a ha
       first
       | (rcases List.mem_or_eq_of_mem_set ha with h1 | h1
          · exact hall a h1
          · subst h1; exact hv)
       | (rcases List.mem_append.mp ha with h1 | h1
          · exact hall a h1
          · simp only [List.mem_singleton] at h1
            subst h1
            exact hv))

/-- Tokenizer invariant: the current argument buffer and every stored
argument are whitespace-free. -/
def plInv (s : PLState) : Prop :=
  noWS s.curArg ∧ ∀ a ∈ s.args, noWS a

/-- One tokenizer step preserves the whitespace-free invariant:
whitespace is discarded in the argument stages, and substitution only
splices whitespace-free renderings. -/
theorem plStep_inv (st : EngineState) (fuelLeft : Nat) (s : PLState)
    (c : Char) (s1 : PLState) (hinv : plInv s)
    (h : plStep st fuelLeft s c = .ok (some s1)) : plInv s1 := by
  obtain ⟨hcur, hargs⟩ := hinv
  rw [plStep] at h
  repeat' split at h
  all_goals
    first
    | exact Except.noConfusion h
    | (simp only [Except.ok.injEq] at h
       exact Option.noConfusion h)
    | (simp only [Except.ok.injEq, Option.some.injEq] at h
       subst h
       first
       | exact ⟨hcur, hargs⟩
       | exact ⟨fun d hd => absurd hd (List.not_mem_nil d),
            storeArg_noWS _ _ _ _
              (noWS_substituteVariables _ _ _ _ _ _ (noWS_chompL _)
                (by assumption))
              hargs (by assumption)⟩
       | (refine ⟨?_, hargs⟩
          intro d hd
          rcases List.mem_append.mp hd with h1 | h1
          · exact hcur d h1
          · simp only [List.mem_singleton] at h1
            have hns : ¬(c = ' ' ∨ c = '\t') := by assumption
            rw [h1]
            exact ⟨fun he => hns (Or.inl he), fun he => hns (Or.inr he)⟩)
       | (refine ⟨?_, hargs⟩
          intro d hd
          simp only [List.mem_singleton] at hd
          rw [hd]
          exact ⟨by decide, by decide⟩))

/-- The tokenizer loop preserves the whitespace-free invariant. -/
theorem plRun_inv (st : EngineState) (fuelLeft : Nat) :
    ∀ chars : List Char, ∀ s s1 : PLState, plInv s →
    plRun st fuelLeft chars s = .ok (some s1) → plInv s1 := by
  intro chars
  induction chars with
  | nil =>
    intro s s1 hinv h
    simp only [plRun, Except.ok.injEq, Option.some.injEq] at h
    subst h
    exact hinv
  | cons c cs ih =>
    intro s s1 hinv h
    rw [plRun] at h
    split at h
    · exact Except.noConfusion h
    · simp only [Except.ok.injEq] at h
      exact Option.noConfusion h
    · exact ih _ _ (plStep_inv _ _ _ _ _ hinv (by assumption)) h

/-- The trailing argument parse_line stores is whitespace-free. -/
theorem noWS_plFinalArg (st : EngineState) (fuelLeft : Nat)
    (s : PLState) (ca : List Char)
    (h : plFinalArg st fuelLeft s = .ok ca) : noWS ca := by
  rw [plFinalArg] at h
  repeat' split at h
  all_goals
    first
    | exact Except.noConfusion h
    | (simp only [Except.ok.injEq] at h
       subst h
       first
       | exact noWS_chompL _
       | exact noWS_substituteVariables _ _ _ _ _ _ (noWS_chompL _)
           (by assumption))

/-- C10: every argument string parse_line produces is free of space
and tab characters — in the argument state all whitespace is discarded
unconditionally, so whitespace inside an argument is deleted rather
than preserved; in particular the argument text `x0 ; y0` tokenizes to
the single argument `x0;y0`. -/
theorem tokenizer_args_no_whitespace :
    (∀ st : EngineState, ∀ fuelLeft : Nat,
      ∀ line cmd : List Char, ∀ args : List (List Char),
      parseLine st fuelLeft line = .ok (some (cmd, args)) →
      ∀ a ∈ args, ∀ c ∈ a, c ≠ ' ' ∧ c ≠ '\t') ∧
    parseLine initState 20 ("cmd x0 ; y0".toList)
      = .ok (some ("cmd".toList, ["x0;y0".toList])) := by
  refine ⟨?_, by decide⟩
  intro st fuelLeft line cmd args h a ha
  rw [parseLine] at h
  split at h
  · exact Except.noConfusion h
  · simp only [Except.ok.injEq] at h
    exact Option.noConfusion h
  · have hinv : plInv (⟨.commandS, [], [], -1, []⟩ : PLState) :=
      ⟨fun d hd => absurd hd (List.not_mem_nil d),
       fun b hb => absurd hb (List.not_mem_nil b)⟩
    have hfin := plRun_inv st fuelLeft _ _ _ hinv (by assumption)
    obtain ⟨hcur, hargs⟩ := hfin
    repeat' split at h
    all_goals
      first
      | exact Except.noConfusion h
      | (simp only [Except.ok.injEq, Option.some.injEq, Prod.mk.injEq] at h
         obtain ⟨_, rfl⟩ := h
         first
         | exact fun c hc => hargs a ha c hc
         | exact fun c hc => storeArg_noWS _ _ _ _
             (noWS_plFinalArg _ _ _ _ (by assumption)) hargs
             (by assumption) a ha c hc)

/-- Witness for `tokenizer_args_no_whitespace`: its universal clause
applied to the concrete line of its second clause. -/
theorem tokenizer_args_no_whitespace_witness :
    ∀ a ∈ (["x0;y0".toList] : List (List Char)), ∀ c ∈ a,
      c ≠ ' ' ∧ c ≠ '\t' :=
  tokenizer_args_no_whitespace.1 initState 20 ("cmd x0 ; y0".toList)
    ("cmd".toList) (["x0;y0".toList]) (by decide)

/-- The digit accumulator factors through its accumulator. -/
theorem natCharsAux_acc (fuelLeft : Nat) : ∀ n : Nat, ∀ acc : List Char,
    natCharsAux fuelLeft n acc = natCharsAux fuelLeft n [] ++ acc := by
  induction fuelLeft with
  | zero => intro n acc; simp [natCharsAux]
  | succ f ih =>
    intro n acc
    rw [natCharsAux, natCharsAux]
    split
    · simp
    · rw [ih (n / 10) (digitChar (n % 10) :: acc),
        ih (n / 10) [digitChar (n % 10)]]
      simp

/-- Every character the digit accumulator emits is a digit. -/
theorem natCharsAux_digits (fuelLeft : Nat) : ∀ n : Nat,
    ∀ acc : List Char, (∀ c ∈ acc, isDigitC c = true) →
    ∀ c ∈ natCharsAux fuelLeft n acc, isDigitC c = true := by
  induction fuelLeft with
  | zero => intro n acc hacc; exact hacc
  | succ f ih =>
    intro n acc hacc
    rw [natCharsAux]
    split
    · exact hacc
    · apply ih
      intro c hc
      rcases List.mem_cons.mp hc with h | h
      · subst h
        have : ∀ d : Nat, d < 10 → isDigitC (digitChar d) = true := by
          decide
        exact this _ (Nat.mod_lt _ (by omega))
      · exact hacc c h

/-- The rendering of a natural number consists of digits only. -/
theorem natChars_digits (n : Nat) : ∀ c ∈ natChars n, isDigitC c = true := by
  rw [natChars]
  split
  · intro c hc
    simp only [List.mem_singleton] at hc
    subst hc
    decide
  · exact natCharsAux_digits _ _ _ (by intro c hc; simp at hc)

/-- The rendering of a natural number is never empty. -/
theorem natChars_ne_nil (n : Nat) : natChars n ≠ [] := by
  rw [natChars]
  split
  · simp
  · rw [natCharsAux]
    split
    · omega
    · rw [natCharsAux_acc]
      simp

/-- The decimal-digit left fold used by the digit-run parser. -/
def digitFold (v : Nat) (l : List Char) : Nat :=
  l.foldl (fun a c => a * 10 + (c.toNat - 48)) v

/-- The digit-run parser is the decimal left fold on all-digit
strings. -/
theorem parseDigitsAux_digits (l : List Char) : ∀ v k : Nat,
    (∀ c ∈ l, isDigitC c = true) →
    parseDigitsAux l v k = (digitFold v l, k + l.length, []) := by
  induction l with
  | nil => intro v k _; simp [parseDigitsAux, digitFold]
  | cons c cs ih =>
    intro v k hall
    have hc : isDigitC c = true := hall c (by simp)
    rw [parseDigitsAux, if_pos hc, ih _ _ (fun d hd => hall d (by simp [hd]))]
    simp only [digitFold, List.foldl_cons, List.length_cons, Prod.mk.injEq]
    exact ⟨trivial, by omega, trivial⟩

/-- Folding the rendered digits of `n` on top of `v` recovers
`v * 10 ^ digits + n`. -/
theorem digitFold_natCharsAux (fuelLeft : Nat) : ∀ n v : Nat,
    n < 10 ^ fuelLeft →
    digitFold v (natCharsAux fuelLeft n []) =
      v * 10 ^ (natCharsAux fuelLeft n []).length + n := by
  induction fuelLeft with
  | zero =>
    intro n v hn
    have : n = 0 := by omega
    subst this
    simp [natCharsAux, digitFold]
  | succ f ih =>
    intro n v hn
    rw [natCharsAux]
    split
    · simp [digitFold]
      omega
    · rw [natCharsAux_acc]
      have hdiv : n / 10 < 10 ^ f := by
        rw [Nat.div_lt_iff_lt_mul (by omega : 0 < 10)]
        calc n < 10 ^ (f + 1) := hn
          _ = 10 ^ f * 10 := by rw [pow_succ]
      have hfold : digitFold v (natCharsAux f (n / 10) [] ++
          [digitChar (n % 10)]) =
          digitFold (digitFold v (natCharsAux f (n / 10) []))
            [digitChar (n % 10)] := by
        simp [digitFold]
      rw [hfold, ih _ _ hdiv]
      have hm : (digitChar (n % 10)).toNat - 48 = n % 10 := by
        have : ∀ d : Nat, d < 10 → (digitChar d).toNat - 48 = d := by decide
        exact this _ (Nat.mod_lt _ (by omega))
      simp only [digitFold, List.foldl_cons, List.foldl_nil, hm,
        List.length_append, List.length_singleton]
      calc (v * 10 ^ (natCharsAux f (n / 10) []).length + n / 10) * 10 +
          n % 10
          = v * (10 ^ (natCharsAux f (n / 10) []).length * 10) +
            (n / 10 * 10 + n % 10) := by ring
        _ = v * 10 ^ ((natCharsAux f (n / 10) []).length + 1) + n := by
            rw [pow_succ]
            omega

/-- The digit rendering has at most `d` digits when `n < 10 ^ d`. -/
theorem natCharsAux_length_le (fuelLeft : Nat) : ∀ d n : Nat,
    n < 10 ^ d → (natCharsAux fuelLeft n []).length ≤ d := by
  induction fuelLeft with
  | zero => intro d n _; simp [natCharsAux]
  | succ f ih =>
    intro d n hn
    rw [natCharsAux]
    split
    · simp
    · rw [natCharsAux_acc]
      cases d with
      | zero =>
        simp only [pow_zero, Nat.lt_one_iff] at hn
        omega
      | succ d =>
        have hdiv : n / 10 < 10 ^ d := by
          rw [Nat.div_lt_iff_lt_mul (by omega : 0 < 10)]
          calc n < 10 ^ (d + 1) := hn
            _ = 10 ^ d * 10 := by rw [pow_succ]
        have := ih d (n / 10) hdiv
        simp only [List.length_append, List.length_singleton]
        omega

/-- Every natural fits in the rendering fuel. -/
theorem nat_lt_ten_pow_succ (n : Nat) : n < 10 ^ (n + 1) := by
  calc n < 10 ^ n := Nat.lt_pow_self (by omega) n
    _ ≤ 10 ^ (n + 1) := Nat.pow_le_pow_right (by omega) (by omega)

/-- Parsing the digit run of a rendered natural recovers it. -/
theorem parseDigits_natChars (n : Nat) :
    (parseDigits (natChars n)).1 = n := by
  rw [parseDigits, parseDigitsAux_digits _ _ _ (natChars_digits n)]
  show digitFold 0 (natChars n) = n
  rw [natChars]
  split
  · next h => subst h; decide
  · have := digitFold_natCharsAux (n + 1) n 0 (nat_lt_ten_pow_succ n)
    simpa using this

/-- Digits are not whitespace. -/
theorem digit_not_space (c : Char) (h : isDigitC c = true) :
    isSpaceC c = false := by
  by_contra hs
  rw [Bool.not_eq_false] at hs
  simp only [isSpaceC, Bool.or_eq_true, decide_eq_true_eq] at hs
  rcases hs with ((((hc | hc) | hc) | hc) | hc) | hc <;> subst hc <;>
    exact absurd h (by decide)

/-- sscanf with `%zu` recovers any rendered natural below `2 ^ 64`. -/
theorem sscanfZu_natChars (n : Nat) (hn : n < 2 ^ 64) :
    sscanfZu (natChars n) = some n := by
  obtain ⟨c, cs, hcons⟩ : ∃ c cs, natChars n = c :: cs := by
    cases h : natChars n with
    | nil => exact absurd h (natChars_ne_nil n)
    | cons c cs => exact ⟨c, cs, rfl⟩
  have hdig : isDigitC c = true := natChars_digits n c (by rw [hcons]; simp)
  have hdrop : (natChars n).dropWhile isSpaceC = natChars n := by
    rw [hcons, List.dropWhile_cons, digit_not_space c hdig]
    simp
  rw [sscanfZu, hdrop, hcons]
  split
  · next r heq =>
    injection heq with h1 h2
    subst h1
    exact absurd hdig (by decide)
  · next r heq =>
    injection heq with h1 h2
    subst h1
    exact absurd hdig (by decide)
  · rw [sscanfNat]
    simp [hdig, ← hcons, parseDigits_natChars, Nat.mod_eq_of_lt hn]
    exact lt_of_lt_of_eq hn (by norm_num)

/-- The rendered object index fits the `VARIABLE_MAX_SIZE` buffer when
the index is below `10 ^ 14`, so snprintf truncation is the identity. -/
theorem natChars_take_fits (n : Nat) (hn : n < 10 ^ 14) :
    (natChars n).take (VARIABLE_MAX_SIZE - 1) = natChars n := by
  apply List.take_of_length_le
  have h14 : VARIABLE_MAX_SIZE - 1 = 14 := rfl
  rw [h14, natChars]
  split
  · simp
  · exact natCharsAux_length_le (n + 1) 14 n hn

/-- Parsing and storing an `&`-variable named exactly `^` only rebinds
`last_object`: it always succeeds and appends nothing. -/
theorem setVariableParsed_caret (st : EngineState) (value : List Char)
    (idx : Nat) (h : sscanfZu value = some idx) :
    setVariableParsed st '&' ['^'] value =
      .ok { st with lastValue := some idx, lastName := true } := by
  rw [setVariableParsed, if_neg (by decide), if_neg (by decide),
    if_pos rfl, h]
  rfl

/-- set_variable on the pseudo-variable `&^` never hits the
redefinition check and always rebinds `last_object`. -/
theorem setVariable_caret (st : EngineState) (value : List Char)
    (idx : Nat) (h : sscanfZu value = some idx) :
    setVariable st ('&' :: '^' :: []) value =
      .ok { st with lastValue := some idx, lastName := true } := by
  rw [setVariable.eq_def]
  simp only
  rw [getVariable, if_pos rfl]
  by_cases hl : st.lastName
  · rw [if_pos hl]
    simp only [List.headD_cons, ne_eq, not_true_eq_false, if_false]
    exact setVariableParsed_caret st value idx h
  · rw [if_neg hl]
    exact setVariableParsed_caret st value idx h

/-- The raw store step never touches the objects or `last_object`'s
value, and never clears its name flag. -/
theorem setVariableStore_fields (st : EngineState) (ty : Char)
    (nm : List Char) (v : VarValue) :
    (setVariableStore st ty nm v).objects = st.objects ∧
    (st.lastName = true → (setVariableStore st ty nm v).lastName = true) ∧
    (setVariableStore st ty nm v).lastValue = st.lastValue := by
  rw [setVariableStore]
  split
  · exact ⟨rfl, fun _ => rfl, rfl⟩
  · exact ⟨rfl, fun h => h, rfl⟩

/-- Parsing and storing a variable never touches the objects, never
clears `last_object`'s name flag, and keeps `last_object`'s value
whenever the value string parses back to the value already stored. -/
theorem setVariableParsed_fields (st : EngineState) (ty : Char)
    (nm value : List Char) (idx : Nat) (st1 : EngineState)
    (hidx : sscanfZu value = some idx) (hlv : st.lastValue = some idx)
    (h : setVariableParsed st ty nm value = .ok st1) :
    st1.objects = st.objects ∧ (st.lastName = true → st1.lastName = true) ∧
    st1.lastValue = some idx := by
  rw [setVariableParsed] at h
  split at h
  · injection h with h1
    subst h1
    have := setVariableStore_fields st ty nm (.fixed (atofQ value))
    exact ⟨this.1, this.2.1, by rw [this.2.2, hlv]⟩
  · split at h
    · split at h
      · exact Except.noConfusion h
      · next c heq =>
        injection h with h1
        subst h1
        have := setVariableStore_fields st ty nm (.coord c)
        exact ⟨this.1, this.2.1, by rw [this.2.2, hlv]⟩
    · split at h
      · split at h
        · exact Except.noConfusion h
        · next i heq =>
          split at h
          · injection h with h1
            subst h1
            rw [hidx] at heq
            injection heq with h2
            subst h2
            exact ⟨rfl, fun _ => rfl, rfl⟩
          · injection h with h1
            subst h1
            have := setVariableStore_fields st ty nm (.objref i)
            exact ⟨this.1, this.2.1, by rw [this.2.2, hlv]⟩
      · exact Except.noConfusion h

/-- set_variable never touches the objects, never clears
`last_object`'s name flag, and keeps `last_object`'s value whenever the
value string parses back to the value already stored. -/
theorem setVariable_fields (st : EngineState) (name value : List Char)
    (idx : Nat) (st1 : EngineState)
    (hidx : sscanfZu value = some idx) (hlv : st.lastValue = some idx)
    (h : setVariable st name value = .ok st1) :
    st1.objects = st.objects ∧ (st.lastName = true → st1.lastName = true) ∧
    st1.lastValue = some idx := by
  rw [setVariable.eq_def] at h
  split at h
  · exact Except.noConfusion h
  · split at h
    · split at h
      · exact Except.noConfusion h
      · exact setVariableParsed_fields _ _ _ _ _ _ hidx hlv h
    · exact setVariableParsed_fields _ _ _ _ _ _ hidx hlv h

/-- Setting the layer of the last object keeps the object count and
`last_object` untouched. -/
theorem setLastObjectLayer_fields (st : EngineState) (num : Nat) :
    (setLastObjectLayer st num).objects.length = st.objects.length ∧
    (setLastObjectLayer st num).lastName = st.lastName ∧
    (setLastObjectLayer st num).lastValue = st.lastValue := by
  refine ⟨?_, rfl, rfl⟩
  rw [setLastObjectLayer]
  cases hl : st.objects.getLast? with
  | none =>
    have he : st.objects = [] := by
      cases hobjs : st.objects with
      | nil => rfl
      | cons a as =>
        rw [hobjs] at hl
        exact absurd hl (by simp)
    simp [he]
  | some o =>
    have hne : st.objects ≠ [] := by
      intro he
      rw [he] at hl
      exact Option.noConfusion hl
    have hpos : 0 < st.objects.length := List.length_pos.mpr hne
    simp only [hl, Option.elim_some, List.length_append, List.length_take,
      List.length_singleton]
    omega

/-- create_object appends exactly one object and leaves `last_object`
bound to its index, whenever it succeeds and the new index fits the
snprintf buffer. -/
theorem createObject_creates (st : EngineState) (ty : Nat)
    (args : List (List Char)) (stf : EngineState)
    (hsmall : st.objects.length < 10 ^ 14)
    (h : createObject st ty args = .ok stf) :
    stf.objects.length = st.objects.length + 1 ∧
    stf.lastName = true ∧ stf.lastValue = some st.objects.length := by
  have hscan : sscanfZu (natChars st.objects.length) =
      some st.objects.length :=
    sscanfZu_natChars _ (lt_trans hsmall (by norm_num))
  rw [createObject] at h
  split at h
  case isFalse =>
    rw [exbind_err] at h
    cases h
  case isTrue =>
    rw [exbind_ok_iff] at h
    obtain ⟨a0, _, h⟩ := h
    rw [exbind_ok_iff] at h
    obtain ⟨a1, _, h⟩ := h
    rw [exbind_ok_iff] at h
    obtain ⟨c0, _, h⟩ := h
    rw [exbind_ok_iff] at h
    obtain ⟨c1, _, h⟩ := h
    rw [exbind_ok_iff] at h
    obtain ⟨coords, _, h⟩ := h
    simp only at h
    rw [exbind_ok_iff] at h
    obtain ⟨st2, hst2, h⟩ := h
    have hcar : ("&^".toList : List Char) = '&' :: '^' :: [] := by decide
    rw [hcar] at hst2
    simp only [List.length_append, List.length_singleton,
      Nat.add_sub_cancel] at hst2
    rw [natChars_take_fits st.objects.length hsmall,
      setVariable_caret _ (natChars st.objects.length) _ hscan] at hst2
    injection hst2 with hst2
    subst hst2
    split at h
    · cases h
    · split at h
      · rw [exbind_ok_iff] at h
        obtain ⟨st3, hst3, h⟩ := h
        simp only [List.length_append, List.length_singleton,
          Nat.add_sub_cancel] at hst3
        rw [natChars_take_fits st.objects.length hsmall] at hst3
        obtain ⟨e3o, e3n, e3v⟩ :=
          setVariable_fields _ _ _ _ _ hscan rfl hst3
        split at h
        · rw [exbind_err] at h
          cases h
        · rw [exbind_ok_iff] at h
          obtain ⟨last2, hl, h⟩ := h
          obtain rfl : (st3, args.length - 2) = last2 := by
            simpa [expure_ok] using hl
          split at h
          · rw [exbind_ok_iff] at h
            obtain ⟨num, _, h⟩ := h
            obtain rfl : setLastObjectLayer st3 num = stf := by
              simpa [expure_ok] using h
            obtain ⟨f1, f2, f3⟩ := setLastObjectLayer_fields st3 num
            refine ⟨?_, ?_, ?_⟩
            · rw [f1, e3o]
              simp
            · rw [f2]
              exact e3n rfl
            · rw [f3, e3v]
          · obtain rfl : st3 = stf := by simpa [expure_ok] using h
            refine ⟨?_, e3n rfl, e3v⟩
            rw [e3o]
            simp
      · rw [exbind_ok_iff] at h
        obtain ⟨last2, hl, h⟩ := h
        obtain rfl : ({ st with
            objects := st.objects ++ [⟨ty, 0, coords⟩]
            lastValue := some st.objects.length
            lastName := true }, args.length - 1) = last2 := by
          simpa [expure_ok] using hl
        split at h
        · rw [exbind_ok_iff] at h
          obtain ⟨num, _, h⟩ := h
          obtain rfl : setLastObjectLayer _ num = stf := by
            simpa [expure_ok] using h
          obtain ⟨f1, f2, f3⟩ := setLastObjectLayer_fields _ num
          refine ⟨?_, ?_, ?_⟩
          · rw [f1]
            simp
          · rw [f2]
          · rw [f3]
        · obtain rfl : _ = stf := by simpa [expure_ok] using h
          refine ⟨by simp, rfl, rfl⟩

/-- C4 (amended): set_variable fails with the variable-redefinition
fatal error whenever the stripped name already exists in the store and
the stored variable's name does not begin with the character `^` (the
code checks `old_var->name[0] != '^'`, not equality with the
pseudo-variable `^`); rebinding `&^` always succeeds without touching
the variable list, and after every successful object creation the
object count has grown by one and resolving `^` yields the most
recently created object's index. -/
theorem set_variable_redefinition_amended :
    (∀ st : EngineState, ∀ ty : Char, ∀ nm value : List Char,
      ∀ old : variable_t, getVariable st nm = some old →
      old.name.headD nulChar ≠ '^' →
      setVariable st (ty :: nm) value = .error .varRedefinition) ∧
    (∀ st : EngineState, ∀ value : List Char, ∀ idx : Nat,
      sscanfZu value = some idx →
      setVariable st ('&' :: '^' :: []) value =
        .ok { st with lastValue := some idx, lastName := true }) ∧
    (∀ st : EngineState, ∀ ty : Nat, ∀ args : List (List Char),
      ∀ stf : EngineState, st.objects.length < 10 ^ 14 →
      createObject st ty args = .ok stf →
      stf.objects.length = st.objects.length + 1 ∧
      getVariable stf ['^'] =
        some ⟨'&', ['^'], .objref st.objects.length⟩) := by
  refine ⟨?_, ?_, ?_⟩
  · intro st ty nm value old hg hne
    rw [setVariable.eq_def]
    simp only
    rw [hg]
    simp only
    rw [if_pos hne]
  · intro st value idx h
    exact setVariable_caret st value idx h
  · intro st ty args stf hsmall hco
    obtain ⟨h1, h2, h3⟩ := createObject_creates st ty args stf hsmall hco
    refine ⟨h1, ?_⟩
    simp [getVariable, h2, h3]

/-- Concrete instances of the three clauses: redefining `$pi` after
`set $pi, 3` is the redefinition fatal error; rebinding `&^` to `7`
from a fresh session succeeds; `line x0;y0, x1;y1` from a fresh
session creates one object and leaves `^` resolving to object 0. -/
theorem set_variable_redefinition_amended_witness :
    setVariable piState ('$' :: 'p' :: 'i' :: []) ('4' :: []) =
      .error .varRedefinition ∧
    setVariable initState ('&' :: '^' :: []) ('7' :: []) =
      .ok { initState with lastValue := some 7, lastName := true } ∧
    (∃ stf, createObject initState 1
        ["x0;y0".toList, "x1;y1".toList] = .ok stf ∧
      stf.objects.length = 1 ∧
      getVariable stf ['^'] = some ⟨'&', ['^'], .objref 0⟩) := by
  refine ⟨?_, ?_, ?_⟩
  · exact set_variable_redefinition_amended.1 piState '$' ('p' :: 'i' :: [])
      ('4' :: []) ⟨'$', 'p' :: 'i' :: [], .fixed 3⟩ (by decide) (by decide)
  · exact set_variable_redefinition_amended.2.1 initState ('7' :: []) 7
      (by decide)
  · obtain ⟨stf, hco⟩ : ∃ stf, createObject initState 1
        ["x0;y0".toList, "x1;y1".toList] = .ok stf := ⟨_, rfl⟩
    have hres := set_variable_redefinition_amended.2.2 initState 1
      ["x0;y0".toList, "x1;y1".toList] stf (by decide) hco
    have h0 : initState.objects.length = 0 := rfl
    rw [h0] at hres
    exact ⟨stf, hco, hres.1, hres.2⟩

end NanoCAD
